import Mathlib

/-!
# Verification of the label-gating subsystem of `spatial_data.la.label`

This file gives a shallow embedding of the label/gating code in
`src/spatial_data/la/label.py` and proves or refutes the frozen claims about
it.  The embedding follows the Python source:

* the xarray container is modelled by `Container` (cell coordinates, label
  registry coordinates, the `_labels` name/color columns, the `_obs` label
  feature as an assignment function, intensity layers, and the persisted
  attribute store `attrs`);
* the `networkx.DiGraph` used for the gating graph is modelled by `NXGraph`,
  a list of nodes each carrying an attribute dictionary and a successor list,
  mirroring networkx's node-dict/adjacency representation;
* Python dictionaries are modelled by association lists with
  replace-first-or-append update (`alSet`), matching dict insertion order
  semantics;
* floats (intensities, thresholds) are modelled by `Int`: every claim only
  uses strict comparison with a threshold, never float arithmetic;
* fallible operations return `Except String`; the error strings name the
  Python exception raised at the corresponding point.
-/

/-! ## Association lists (Python dict model) -/

def alGet {κ ρ : Type} [DecidableEq κ] : List (κ × ρ) → κ → Option ρ
  | [], _ => Option.none
  | (k', v) :: rest, k => if k' = k then some v else alGet rest k

/-- Python dict update: an existing key keeps its position, a new key is
appended at the end. -/
def alSet {κ ρ : Type} [DecidableEq κ] : List (κ × ρ) → κ → ρ → List (κ × ρ)
  | [], k, v => [(k, v)]
  | (k', v') :: rest, k, v =>
    if k' = k then (k, v) :: rest else (k', v') :: alSet rest k v

/-- Python `dict.pop`: removes the (unique) entry with the given key. -/
def alErase {κ ρ : Type} [DecidableEq κ] : List (κ × ρ) → κ → List (κ × ρ)
  | [], _ => []
  | (k', v') :: rest, k => if k' = k then rest else (k', v') :: alErase rest k

/-! ## Node attribute values and persisted attribute values -/

/-- A value stored in a networkx node attribute dictionary.  `nat`, `int`,
`str`, `bool` cover the concrete Python values the gating code stores
(`label_id`/`step`/`num_cells`, `threshold`, `channel`/`label_name`/
`intensity_key`, `override`); `adjval` is a dict-of-lists value (it arises
only if an adjacency dictionary is broadcast as a node attribute); `none` is
Python `None` (the unset optional fields of the root node). -/
inductive PropVal where
  | nat (n : Nat)
  | int (i : Int)
  | str (s : String)
  | bool (b : Bool)
  | adjval (l : List Nat)
  | none
deriving DecidableEq, Repr

/-- A value in the persisted attribute store `obj.attrs`: the `"graph"` key
holds an adjacency dict-of-dicts (edge attribute dicts are always empty in
this code, so only successor lists are kept), the per-node-property keys hold
`label_id → value` dictionaries, and `raw` stands for any other Python value
a user may have stored under an unrelated key. -/
inductive AttrVal where
  | adj (a : List (Nat × List Nat))
  | props (p : List (Nat × PropVal))
  | raw (s : String)
deriving DecidableEq, Repr

/-! ## The networkx DiGraph model -/

structure NXNode where
  id : Nat
  attr : List (String × PropVal)
  succ : List Nat
deriving DecidableEq, Repr

abbrev NXGraph := List NXNode

def hasNode (g : NXGraph) (n : Nat) : Bool := g.any (fun nd => nd.id = n)

def nodeOf (g : NXGraph) (n : Nat) : Option NXNode := g.find? (fun nd => nd.id = n)

/-- The attribute dictionary entry `key` of node `n`, if the node exists and
carries the attribute. -/
def nodeAttr (g : NXGraph) (n : Nat) (key : String) : Option PropVal :=
  (nodeOf g n).bind (fun nd => alGet nd.attr key)

def idsOf (g : NXGraph) : List Nat := g.map (fun nd => nd.id)

/-- networkx creates a missing node (with an empty attribute dict) on demand;
node order is insertion order. -/
def ensureNode (g : NXGraph) (n : Nat) : NXGraph :=
  if hasNode g n then g else g ++ [⟨n, [], []⟩]

/-- Apply a list of keyword attributes to the node `n` (Python
`G.add_node(n, **kvs)` updates the node's attribute dict in place). -/
def updateNodeAttrs (g : NXGraph) (n : Nat) (kvs : List (String × PropVal)) : NXGraph :=
  g.map (fun nd =>
    if nd.id = n then { nd with attr := kvs.foldl (fun a kv => alSet a kv.1 kv.2) nd.attr }
    else nd)

/-- `G.add_node(n, **kvs)`: create the node if missing, then merge the given
attributes into its attribute dict. -/
def add_node (g : NXGraph) (n : Nat) (kvs : List (String × PropVal)) : NXGraph :=
  updateNodeAttrs (ensureNode g n) n kvs

/-- `G.add_edge(u, v)`: create missing endpoints, then record `v` as a
successor of `u` (a digraph has no duplicate edges). -/
def add_edge (g : NXGraph) (u v : Nat) : NXGraph :=
  (ensureNode (ensureNode g u) v).map (fun nd =>
    if nd.id = u then { nd with succ := if v ∈ nd.succ then nd.succ else nd.succ ++ [v] }
    else nd)

/-- `nx.get_node_attributes(G, key)`: the `node → value` dict of all nodes
carrying attribute `key`, in node order. -/
def get_node_attributes (g : NXGraph) (key : String) : List (Nat × PropVal) :=
  g.filterMap (fun nd => (alGet nd.attr key).map (fun v => (nd.id, v)))

def setAttrIfMem (g : NXGraph) (n : Nat) (key : String) (v : PropVal) : NXGraph :=
  if hasNode g n then updateNodeAttrs g n [(key, v)] else g

/-- `nx.set_node_attributes(G, values, name)`: a per-node dictionary sets the
attribute on each node present in the graph (missing nodes are skipped); a
non-dict value is broadcast to every node. -/
def set_node_attributes (g : NXGraph) (v : AttrVal) (key : String) : NXGraph :=
  match v with
  | .props p => p.foldl (fun g nv => setAttrIfMem g nv.1 key nv.2) g
  | .adj a => a.foldl (fun g nv => setAttrIfMem g nv.1 key (.adjval nv.2)) g
  | .raw s => g.map (fun nd => { nd with attr := alSet nd.attr key (.str s) })

/-- `nx.to_dict_of_dicts(G)` (edge attribute dicts, always empty here, are
dropped): every node becomes a key mapped to its successors. -/
def to_dict_of_dicts (g : NXGraph) : List (Nat × List Nat) :=
  g.map (fun nd => (nd.id, nd.succ))

/-- `nx.from_dict_of_dicts(d, create_using=nx.DiGraph)`: all keys are added
as nodes first, then every `u → v` edge. -/
def from_dict_of_dicts (a : List (Nat × List Nat)) : NXGraph :=
  let g := a.foldl (fun g p => ensureNode g p.1) []
  a.foldl (fun g p => p.2.foldl (fun g v => add_edge g p.1 v) g) g

def succOf (g : NXGraph) (n : Nat) : List Nat :=
  ((nodeOf g n).map (fun nd => nd.succ)).getD []

def reachAux (g : NXGraph) : Nat → List Nat → List Nat → List Nat
  | 0, _, vis => vis
  | _ + 1, [], vis => vis
  | fuel + 1, f :: fs, vis =>
    if f ∈ vis then reachAux g fuel fs vis
    else reachAux g fuel (fs ++ succOf g f) (vis ++ [f])

/-- `nx.descendants(G, source)`: all nodes reachable from `source` excluding
`source` itself; raises `NetworkXError` when `source` is not a node. -/
def nxDescendants (g : NXGraph) (n : Nat) : Except String (List Nat) :=
  if hasNode g n then
    .ok ((reachAux g (g.length * g.length + g.length + 1) (succOf g n) []).filter (fun m => m ≠ n))
  else .error "NetworkXError: The node is not in the digraph."

/-! ## The gating graph persisted in the attribute store -/

/-- The root-only graph built by `get_gate_graph` when no graph was ever
persisted (`LabelAccessor.get_gate_graph`, the `"graph" not in attrs` path).
The root node 0 has all optional fields `None`, `step = 0`, and no
`num_cells` attribute. -/
def freshGateGraph : NXGraph :=
  add_node [] 0
    [("label_name", .str "Unlabeled"), ("label_id", .nat 0), ("channel", .none),
     ("threshold", .none), ("intensity_key", .none), ("override", .none), ("step", .nat 0)]

/-- The loop of `get_gate_graph` that applies every remaining persisted
attribute entry as a per-node attribute dictionary.  When `pop = false` the
`"graph"` entry is skipped (`if key == "graph": continue`); when `pop = true`
every entry is processed (the `"graph"` entry was already popped before the
key list was computed). -/
def applyAttrEntries (pop : Bool) (entries : List (String × AttrVal)) (g : NXGraph) : NXGraph :=
  entries.foldl
    (fun g kv => if pop = false ∧ kv.1 = "graph" then g else set_node_attributes g kv.2 kv.1) g

/-- `LabelAccessor.get_gate_graph(pop)`: returns the reconstructed graph
together with the state of the attribute store after the call (Python
mutates `obj.attrs` in place when `pop=True`; here the post-call store is
returned explicitly).  With `pop=True` the `"graph"` key is popped first,
and then the loop pops *every* remaining key, so the store ends up empty. -/
def get_gate_graph (attrs : List (String × AttrVal)) (pop : Bool) :
    Except String (NXGraph × List (String × AttrVal)) :=
  match alGet attrs "graph" with
  | Option.none => .ok (freshGateGraph, attrs)
  | some (.adj a) =>
    let attrs1 := if pop then alErase attrs "graph" else attrs
    let g := applyAttrEntries pop attrs1 (from_dict_of_dicts a)
    .ok (g, if pop then [] else attrs1)
  | some _ => .error "TypeError: 'graph' attribute is not a dict of dicts"

def maxD (l : List Nat) : Nat := l.foldl max 0

def isNatStep (p : Nat × PropVal) : Bool :=
  match p.2 with | .nat _ => true | _ => false

def stepNatsOf (g : NXGraph) : List Nat :=
  (get_node_attributes g "step").filterMap
    (fun p => match p.2 with | .nat v => some v | _ => Option.none)

/-- `max(list(nx.get_node_attributes(graph, "step").values()))`: Python's
`max` raises `ValueError` on an empty sequence and `TypeError` when the
values are not comparable integers. -/
def pyMaxSteps (g : NXGraph) : Except String Nat :=
  if (get_node_attributes g "step").isEmpty then
    .error "ValueError: max() arg is an empty sequence"
  else if (get_node_attributes g "step").all isNatStep then
    .ok (maxD (stepNatsOf g))
  else .error "TypeError: step values are not comparable"

/-- The eight per-node properties `gate_label_type` flattens into the
attribute store, in source order. -/
def gatePropKeys : List String :=
  ["channel", "threshold", "intensity_key", "override", "label_name", "label_id",
   "step", "num_cells"]

/-- The attribute-store writes at the end of `gate_label_type`:
`attrs["graph"] = nx.to_dict_of_dicts(graph)` followed by
`attrs[prop] = nx.get_node_attributes(graph, prop)` for each property. -/
def writeGraphAttrs (attrs : List (String × AttrVal)) (g : NXGraph) :
    List (String × AttrVal) :=
  gatePropKeys.foldl (fun a k => alSet a k (.props (get_node_attributes g k)))
    (alSet attrs "graph" (.adj (to_dict_of_dicts g)))

/-! ## The container -/

/-- The xarray dataset the `la` accessor is attached to.  `cells` and
`labels` are the `Dims.CELLS` and `Dims.LABELS` coordinates; `names` and
`colors` model the `_labels` layer columns (`Props.NAME`, `Props.COLOR`) as
total functions whose meaningful domain is `labels`; `assignment` models the
`_obs` layer's `Features.LABELS` column as a total function whose meaningful
domain is `cells`; `intensity` models the per-cell intensity layers,
`intensity key channel cell` being the value selected by
`obj[key].sel(channels=channel)` at `cell` (layers and channels are modelled
as always present — no claim depends on a missing layer or channel).
Containers are modelled after the `_labels` and `_obs` layers exist, so the
layer-presence checks of the source always pass. -/
structure Container where
  cells : List Nat
  labels : List Nat
  names : Nat → String
  colors : Nat → String
  assignment : Nat → Nat
  intensity : String → String → Nat → Int
  attrs : List (String × AttrVal)

instance : Inhabited Container :=
  ⟨⟨[], [], fun _ => "", fun _ => "", fun _ => 0, fun _ _ _ => 0, []⟩⟩

def getOk {α : Type} [Inhabited α] : Except String α → α
  | .ok a => a
  | .error _ => default

/-- `LabelAccessor._filter_cells_by_label(items)`: the cell coordinates whose
`_obs` label feature is one of `items` (`np.isin`), in coordinate order. -/
def _filter_cells_by_label (obj : Container) (items : List Nat) : List Nat :=
  obj.cells.filter (fun c => obj.assignment c ∈ items)

/-- `cells_for(label_id)` of the spec: `_filter_cells_by_label` at a single
label id. -/
def cellsFor (obj : Container) (l : Nat) : List Nat := _filter_cells_by_label obj [l]

/-- Lookup in the dictionary built by
`_cells_to_label(include_unlabeled=True)`: its keys are the label
coordinates plus 0, each mapped to `_filter_cells_by_label` of that id;
a missing key is a Python `KeyError`. -/
def labeled_cells_lookup (obj : Container) (l : Nat) : Option (List Nat) :=
  if l ∈ obj.labels ∨ l = 0 then some (_filter_cells_by_label obj [l]) else Option.none

/-- The reverse name dictionary `_label_to_dict(Props.NAME, reverse=True)`:
`{name: id}` built over the label coordinates in order, a later id with the
same name overwriting an earlier one. -/
def label_names_reverse (obj : Container) (s : String) : Option Nat :=
  (obj.labels.filter (fun l => obj.names l = s)).getLast?

/-- Resolution of a `Union[int, str]` label argument: a string is looked up
in the reverse name dictionary (`ValueError` if absent), an int passes
through unchecked. -/
def resolveRef (obj : Container) (r : Sum Nat String) : Except String Nat :=
  match r with
  | .inl i => .ok i
  | .inr s =>
    match label_names_reverse obj s with
    | some i => .ok i
    | Option.none => .error ("ValueError: Cell type " ++ s ++ " not found.")

/-! ## Selection: `__getitem__` and `deselect` -/

/-- `LabelAccessor.__getitem__` on a list of integer indices (the branch the
claims exercise; float/str/slice index kinds are other branches of the same
runtime type dispatch): every index must be a label coordinate
(`ValueError: Label type … not found.`), then the container is narrowed
jointly to the selected labels and their cells
(`self._obj.sel({LABELS: sel, CELLS: cells})`). -/
def la_getitem_list (obj : Container) (indices : List Nat) : Except String Container :=
  if indices.all (fun i => i ∈ obj.labels) then
    .ok { obj with labels := indices, cells := _filter_cells_by_label obj indices }
  else .error "ValueError: Label type not found."

/-- `LabelAccessor.deselect` on a list of integer indices: the complement
`inv_sel = [i for i in range(1, dims[LABELS] + 1) if i not in sel]` is
selected; `self._obj.sel` raises `KeyError` if some complement id is not a
label coordinate. -/
def la_deselect_list (obj : Container) (indices : List Nat) : Except String Container :=
  if ((List.range' 1 obj.labels.length).filter (fun i => i ∉ indices)).all
      (fun i => i ∈ obj.labels) then
    .ok { obj with
      labels := (List.range' 1 obj.labels.length).filter (fun i => i ∉ indices),
      cells := _filter_cells_by_label obj
        ((List.range' 1 obj.labels.length).filter (fun i => i ∉ indices)) }
  else .error "KeyError: deselected label ids not all found in coordinates"

/-! ## `remove_label_type` -/

/-- The numpy boolean mask of
`(obj[OBS].sel(features=LABELS) == cell_type).values` where `cell_type` is a
*list*: numpy broadcasts shape `(n_cells,)` against '(k,)`, so a length-1
list compares elementwise against its single element, a list of length
`n_cells` compares *pairwise* position by position, and any other length
raises a broadcasting error (`Option.none`). -/
def broadcastEqMask (row : List Nat) (ks : List Nat) : Option (List Bool) :=
  match ks with
  | [k] => some (row.map (fun x => decide (x = k)))
  | _ =>
    if row.length = ks.length then some (row.zipWith (fun x k => decide (x = k)) ks)
    else Option.none

def removeMask (obj : Container) (cell_type : List Nat) : Option (List Bool) :=
  broadcastEqMask (obj.cells.map obj.assignment) cell_type

/-- The cell coordinates selected by the removal mask
(`cells = coords[CELLS][cells_bool]`). -/
def resetCells (obj : Container) (cell_type : List Nat) : List Nat :=
  match removeMask obj cell_type with
  | some m => (obj.cells.zip m).filterMap (fun p => if p.2 then some p.1 else Option.none)
  | Option.none => []

/-- `LabelAccessor.remove_label_type` on a list of ids.  Returns the pair
(state of the invoked container after the call, returned container): the
source first *mutates* `self._obj` in place
(`self._obj[OBS].loc[{FEATURES: LABELS, CELLS: cells}] = 0`) and then
returns `self._obj.sel({LABELS: remaining})`, so the invoked object keeps
its full label registry but with the matched cells reset to 0, while the
returned container additionally drops the removed label coordinates.
Attribute store and gating graph are untouched. -/
def remove_label_type (obj : Container) (cell_type : List Nat) :
    Except String (Container × Container) :=
  if cell_type.all (fun i => i ∈ obj.labels) then
    match removeMask obj cell_type with
    | Option.none => .error "numpy broadcast error: operands could not be broadcast together"
    | some _ =>
      let rc := resetCells obj cell_type
      let origAfter :=
        { obj with assignment := fun c => if c ∈ rc then 0 else obj.assignment c }
      .ok (origAfter, { origAfter with labels := obj.labels.filter (fun i => i ∉ cell_type) })
  else .error "ValueError: Cell type not found."

/-- The `int` overload of `remove_label_type` wraps the id in a list. -/
def remove_label_type_int (obj : Container) (cell_type : Nat) :
    Except String (Container × Container) :=
  remove_label_type obj [cell_type]

/-! ## `gate_label_type` -/

/-- `cells_gated`: the cell coordinates whose intensity on `channel` in the
layer `intensity_key` is strictly greater than the threshold
(`(obj[intensity_key].sel(channels=channel) > threshold).values`). -/
def gatedCells (obj : Container) (intensity_key channel : String) (threshold : Int) :
    List Nat :=
  obj.cells.filter (fun c => threshold < obj.intensity intensity_key channel c)

def lookupLabeledAll (obj : Container) : List Nat → Except String (List (List Nat))
  | [] => .ok []
  | d :: ds =>
    match labeled_cells_lookup obj d with
    | Option.none => .error ("KeyError: " ++ toString d)
    | some cs =>
      match lookupLabeledAll obj ds with
      | .error e => .error e
      | .ok rest => .ok (cs :: rest)

/-- `cells_available`: with `override` the union (concatenation) of the cell
pools of `parent` and all its current graph descendants (`nx.descendants`
raises if `parent` is not a graph node; `labeled_cells[d]` raises `KeyError`
if a descendant id is not a registry label or 0); without `override` exactly
`labeled_cells[parent]`. -/
def availableCells (obj : Container) (graph : NXGraph) (parent : Nat) (override : Bool) :
    Except String (List Nat) :=
  if override then
    match nxDescendants graph parent with
    | .error e => .error e
    | .ok ds =>
      match lookupLabeledAll obj (parent :: ds) with
      | .error e => .error e
      | .ok lists => .ok lists.flatten
  else
    match labeled_cells_lookup obj parent with
    | some cs => .ok cs
    | Option.none => .error ("KeyError: " ++ toString parent)

/-- The keyword attributes of the `graph.add_node(label_id, ...)` call in
`gate_label_type`, in source order. -/
def gateNodeKvs (obj : Container) (label_id : Nat) (channel : String) (threshold : Int)
    (intensity_key : String) (override : Bool) (step num_cells : Nat) :
    List (String × PropVal) :=
  [("label_id", .nat label_id), ("label_name", .str (obj.names label_id)),
   ("channel", .str channel), ("threshold", .int threshold),
   ("intensity_key", .str intensity_key), ("override", .bool override),
   ("step", .nat step), ("num_cells", .nat num_cells)]

/-- The commit phase of `gate_label_type`: write `label_id` into the `_obs`
label feature at `cells_selected` (a fresh copy of the obs layer — the
original is not mutated here), extend the graph with the new node and the
`parent → label_id` edge, and overwrite the persisted graph attributes. -/
def commitGate (obj : Container) (graph : NXGraph) (label_id parent : Nat)
    (channel : String) (threshold : Int) (intensity_key : String) (override : Bool)
    (step : Nat) (cells_gated cells_selected : List Nat) : Container :=
  let g2 := add_edge
    (add_node graph label_id
      (gateNodeKvs obj label_id channel threshold intensity_key override step
        cells_gated.length))
    parent label_id
  { obj with
    assignment := fun c => if c ∈ cells_selected then label_id else obj.assignment c,
    attrs := writeGraphAttrs obj.attrs g2 }

/-- `LabelAccessor.gate_label_type(label_id, channel, threshold,
intensity_key, override, parent)`, following the source step by step:
resolve string label/parent via the reverse name dict, require `label_id` to
be a registry label, load the gating graph (`pop=False`), compute
`step = max(step attributes) + 1`, compute the gated and available cell
pools, intersect, and commit. -/
def gate_label_type (obj : Container) (label_ref : Sum Nat String) (channel : String)
    (threshold : Int) (intensity_key : String) (override : Bool)
    (parent_ref : Sum Nat String) : Except String Container :=
  match resolveRef obj label_ref with
  | .error e => .error e
  | .ok label_id =>
    match resolveRef obj parent_ref with
    | .error e => .error e
    | .ok parent =>
      if label_id ∈ obj.labels then
        match get_gate_graph obj.attrs false with
        | .error e => .error e
        | .ok (graph, _) =>
          match pyMaxSteps graph with
          | .error e => .error e
          | .ok mx =>
            let step := mx + 1
            let cells_gated := gatedCells obj intensity_key channel threshold
            match availableCells obj graph parent override with
            | .error e => .error e
            | .ok cells_available =>
              let cells_selected := cells_gated.filter (fun c => c ∈ cells_available)
              .ok (commitGate obj graph label_id parent channel threshold intensity_key
                override step cells_gated cells_selected)
      else .error "ValueError: Cell type id not found."

/-- The persisted per-node property dictionaries written by
`gate_label_type`: `attrs[key][n]`. -/
def persistedNodeProp (obj : Container) (key : String) (n : Nat) : Option PropVal :=
  match alGet obj.attrs key with
  | some (.props p) => alGet p n
  | _ => Option.none

/-- `next_step()` of the spec: load the graph as `gate_label_type` does and
compute `max(step attributes) + 1`; `Option.none` when the Python code would
raise. -/
def nextStepOf (obj : Container) : Option Nat :=
  match get_gate_graph obj.attrs false with
  | .ok (g, _) =>
    match pyMaxSteps g with
    | .ok mx => some (mx + 1)
    | .error _ => Option.none
  | .error _ => Option.none

/-! ## `_format_labels` -/

def insertAsc (x : Int) : List Int → List Int
  | [] => [x]
  | y :: ys => if x ≤ y then x :: y :: ys else y :: insertAsc x ys

def sortAsc (l : List Int) : List Int := l.foldr insertAsc []

def dedupAdj : List Int → List Int
  | [] => []
  | [x] => [x]
  | x :: y :: ys => if x = y then dedupAdj (y :: ys) else x :: dedupAdj (y :: ys)

/-- `np.unique`: the sorted list of distinct values. -/
def npUnique (l : List Int) : List Int := dedupAdj (sortAsc l)

/-- `skimage.segmentation.relabel_sequential` (offset 1): 0 is preserved and
the distinct positive labels are mapped, in increasing order, to `1..k`. -/
def posRank (pos : List Int) (x : Int) : Nat :=
  (pos.takeWhile (fun y => y ≠ x)).length

def relabel_sequential (l : List Int) : List Int :=
  let pos := (npUnique l).filter (fun x => 0 < x)
  l.map (fun x => if x = 0 then 0 else Int.ofNat (posRank pos x + 1))

/-- `_format_labels`: shift all labels up by one when 0 occurs, then relabel
sequentially when the *raw* unique labels are not consecutive
(`~np.all(np.diff(unique_labels) == 1)`). -/
def _format_labels (labels : List Int) : List Int :=
  let unique_labels := npUnique labels
  let formatted1 := if (0 : Int) ∈ unique_labels then labels.map (fun x => x + 1) else labels
  let diffs := List.zipWith (fun a b => b - a) unique_labels (unique_labels.drop 1)
  if ¬ diffs.all (fun d => d = 1) then relabel_sequential formatted1 else formatted1

/-! ## Derived definitions and concrete example containers -/

/-- The attribute update applied to a node's dict by `updateNodeAttrs`. -/
def applyKvs (attr : List (String × PropVal)) (kvs : List (String × PropVal)) :
    List (String × PropVal) :=
  kvs.foldl (fun a kv => alSet a kv.1 kv.2) attr

/-- Every graph this code constructs has pairwise-distinct node ids (networkx
node dicts are keyed by id). -/
def GWF (g : NXGraph) : Prop := (idsOf g).Nodup

/-- Every node of a freshly reconstructed graph has an empty attribute dict. -/
def nilAttrsP (g : NXGraph) : Prop := ∀ nd ∈ g, nd.attr = []

def c1Ex : Container :=
  { cells := [1, 2], labels := [2], names := fun _ => "B cells",
    colors := fun _ => "w", assignment := fun c => if c = 1 then 2 else 0,
    intensity := fun _ _ c => if c = 2 then 1 else 0, attrs := [] }

def c1Post : Container :=
  getOk (gate_label_type c1Ex (Sum.inl 2) "CD3" 0 "_intensity" false (Sum.inl 0))

def c2Ex : Container :=
  { cells := [1, 2, 3], labels := [1], names := fun _ => "T cells",
    colors := fun _ => "w", assignment := fun _ => 0,
    intensity := fun _ _ c => if c ≤ 2 then 1 else 0, attrs := [] }

def c2Post : Container :=
  getOk (gate_label_type c2Ex (Sum.inl 1) "CD3" 0 "_intensity" false (Sum.inl 0))

def c3Ex : Container :=
  { cells := [1, 2], labels := [1], names := fun _ => "T cells",
    colors := fun _ => "w", assignment := fun _ => 0,
    intensity := fun _ _ c => if c = 1 then 1 else 0, attrs := [] }

def c3Post : Container :=
  getOk (gate_label_type c3Ex (Sum.inl 1) "CD3" 0 "_intensity" false (Sum.inl 0))

def c4Ex : Container :=
  { cells := [10, 11], labels := [1, 2], names := fun _ => "X",
    colors := fun _ => "w",
    assignment := fun c => if c = 10 then 2 else if c = 11 then 1 else 0,
    intensity := fun _ _ _ => 0, attrs := [] }

def c4Pair : Container × Container := getOk (remove_label_type c4Ex [1, 2])

def c5Ex : Container :=
  { cells := [7], labels := [1], names := fun _ => "T cells",
    colors := fun _ => "w", assignment := fun c => if c = 7 then 1 else 0,
    intensity := fun _ _ _ => 0,
    attrs := [("graph", .adj [(0, [1]), (1, [])]),
      ("step", .props [(0, .nat 0), (1, .nat 1)]),
      ("num_cells", .props [(1, .nat 1)])] }

def c5Pair : Container × Container := getOk (remove_label_type c5Ex [1])

def c5Loaded : NXGraph × List (String × AttrVal) :=
  getOk (get_gate_graph c5Ex.attrs false)

def c6Ex : Container :=
  { cells := [10], labels := [1], names := fun _ => "T cells",
    colors := fun _ => "w", assignment := fun c => if c = 10 then 1 else 0,
    intensity := fun _ _ _ => 0, attrs := [] }

def c6Pair : Container × Container := getOk (remove_label_type c6Ex [1])

def c7Ex : Container :=
  { cells := [1, 2], labels := [1, 2], names := fun _ => "X",
    colors := fun _ => "w", assignment := fun c => c,
    intensity := fun _ _ _ => 0, attrs := [] }

def c7Sel : Container := getOk (la_getitem_list c7Ex [1])

def c7Desel : Container := getOk (la_deselect_list c7Ex [1])

def c8Attrs : List (String × AttrVal) :=
  [("graph", .adj [(0, [1]), (1, [])]),
   ("step", .props [(0, .nat 0), (1, .nat 1)]),
   ("foo", .raw "bar")]

def c8Pair : NXGraph × List (String × AttrVal) := getOk (get_gate_graph c8Attrs true)

def c10Ex : Container :=
  { cells := [1, 2, 3], labels := [1, 2], names := fun _ => "X",
    colors := fun _ => "w", assignment := fun _ => 0,
    intensity := fun _ _ _ => 0, attrs := [] }

def c10Post : Container :=
  getOk (gate_label_type c10Ex (Sum.inl 2) "CD3" 0 "_intensity" false (Sum.inl 1))

/-! ## Lemmas: association lists -/

theorem alGet_alSet_self {κ ρ : Type} [DecidableEq κ] (l : List (κ × ρ)) (k : κ) (v : ρ) :
    alGet (alSet l k v) k = some v := by
  induction l with
  | nil => simp [alSet, alGet]
  | cons p rest ih =>
    by_cases h : p.1 = k
    · simp [alSet, alGet, h]
    · simp [alSet, alGet, h, ih]

theorem alGet_alSet_ne {κ ρ : Type} [DecidableEq κ] (l : List (κ × ρ)) (k k' : κ) (v : ρ)
    (h : k ≠ k') : alGet (alSet l k v) k' = alGet l k' := by
  induction l with
  | nil => simp [alSet, alGet, h]
  | cons p rest ih =>
    by_cases hp : p.1 = k
    · simp [alSet, alGet, hp, h]
    · by_cases hp' : p.1 = k'
      · simp [alSet, alGet, hp, hp', Ne.symm h]
      · simp [alSet, alGet, hp, hp', ih]

theorem keys_alSet_subset {κ ρ : Type} [DecidableEq κ] (l : List (κ × ρ)) (k : κ) (v : ρ) :
    ∀ k', k' ∈ (alSet l k v).map Prod.fst → k' ∈ l.map Prod.fst ∨ k' = k := by
  induction l with
  | nil => simp [alSet]
  | cons p rest ih =>
    intro k' hk'
    by_cases hp : p.1 = k
    · simp [alSet, hp] at hk' ⊢
      tauto
    · simp only [alSet, if_neg hp, List.map_cons, List.mem_cons] at hk' ⊢
      rcases hk' with h' | h'
      · tauto
      · rcases ih k' h' with h'' | h'' <;> tauto

theorem keys_nodup_alSet {κ ρ : Type} [DecidableEq κ] (l : List (κ × ρ)) (k : κ) (v : ρ)
    (h : (l.map Prod.fst).Nodup) : ((alSet l k v).map Prod.fst).Nodup := by
  induction l with
  | nil => simp [alSet]
  | cons p rest ih =>
    by_cases hp : p.1 = k
    · simpa [alSet, hp] using h
    · simp only [List.map_cons, List.nodup_cons] at h
      have hrest := ih h.2
      simp only [alSet, if_neg hp, List.map_cons, List.nodup_cons]
      refine ⟨fun hmem => ?_, hrest⟩
      rcases keys_alSet_subset rest k v p.1 hmem with h' | h'
      · exact h.1 h'
      · exact hp h'
/-! ## Lemmas: basic graph operations -/

theorem nodeOf_nil (n : Nat) : nodeOf [] n = Option.none := rfl

theorem nodeOf_cons_self (nd : NXNode) (rest : NXGraph) (n : Nat) (h : nd.id = n) :
    nodeOf (nd :: rest) n = some nd :=
  List.find?_cons_of_pos _ (by simpa using h)

theorem nodeOf_cons_ne (nd : NXNode) (rest : NXGraph) (n : Nat) (h : ¬ nd.id = n) :
    nodeOf (nd :: rest) n = nodeOf rest n :=
  List.find?_cons_of_neg _ (by simpa using h)

theorem hasNode_cons (nd : NXNode) (rest : NXGraph) (n : Nat) :
    hasNode (nd :: rest) n = (decide (nd.id = n) || hasNode rest n) := by
  simp [hasNode]

theorem hasNode_iff_exists (g : NXGraph) (n : Nat) :
    hasNode g n = true ↔ ∃ nd ∈ g, nd.id = n := by
  simp [hasNode, List.any_eq_true]

theorem nodeOf_eq_none_of_not_hasNode (g : NXGraph) (n : Nat) (h : hasNode g n = false) :
    nodeOf g n = Option.none := by
  induction g with
  | nil => rfl
  | cons nd rest ih =>
    rw [hasNode_cons] at h
    simp only [Bool.or_eq_false_iff, decide_eq_false_iff_not] at h
    rw [nodeOf_cons_ne nd rest n h.1]
    exact ih h.2

theorem nodeOf_isSome_of_hasNode (g : NXGraph) (n : Nat) (h : hasNode g n = true) :
    ∃ nd, nodeOf g n = some nd := by
  induction g with
  | nil => simp [hasNode] at h
  | cons nd rest ih =>
    by_cases hi : nd.id = n
    · exact ⟨nd, nodeOf_cons_self nd rest n hi⟩
    · rw [hasNode_cons] at h
      simp only [decide_eq_false_iff_not.mpr hi, Bool.false_or] at h
      rcases ih h with ⟨nd', hnd'⟩
      exact ⟨nd', by rw [nodeOf_cons_ne nd rest n hi]; exact hnd'⟩

theorem hasNode_of_nodeOf_some (g : NXGraph) (n : Nat) (nd : NXNode)
    (h : nodeOf g n = some nd) : hasNode g n = true := by
  by_cases hh : hasNode g n
  · exact hh
  · rw [nodeOf_eq_none_of_not_hasNode g n (by simpa using hh)] at h
    cases h

theorem nodeOf_mem_id (g : NXGraph) (n : Nat) (nd : NXNode) (h : nodeOf g n = some nd) :
    nd ∈ g ∧ nd.id = n := by
  have hmem := List.mem_of_find?_eq_some h
  have hid := List.find?_some h
  exact ⟨hmem, by simpa using hid⟩

theorem nodeOf_append_single_self (g : NXGraph) (n : Nat) (h : hasNode g n = false) :
    nodeOf (g ++ [(⟨n, [], []⟩ : NXNode)]) n = some ⟨n, [], []⟩ := by
  induction g with
  | nil => exact nodeOf_cons_self _ _ _ rfl
  | cons nd rest ih =>
    rw [hasNode_cons] at h
    simp only [Bool.or_eq_false_iff, decide_eq_false_iff_not] at h
    rw [List.cons_append, nodeOf_cons_ne nd _ n h.1]
    exact ih h.2

theorem nodeOf_append_single_ne (g : NXGraph) (n m : Nat) (h : m ≠ n) :
    nodeOf (g ++ [(⟨n, [], []⟩ : NXNode)]) m = nodeOf g m := by
  induction g with
  | nil =>
    rw [List.nil_append, nodeOf_nil, nodeOf_cons_ne _ _ _ (fun hc => h hc.symm)]
    rfl
  | cons nd rest ih =>
    by_cases hi : nd.id = m
    · rw [List.cons_append, nodeOf_cons_self nd _ m hi, nodeOf_cons_self nd rest m hi]
    · rw [List.cons_append, nodeOf_cons_ne nd _ m hi, nodeOf_cons_ne nd rest m hi]
      exact ih

theorem nodeOf_ensureNode_self (g : NXGraph) (n : Nat) :
    nodeOf (ensureNode g n) n = some ((nodeOf g n).getD ⟨n, [], []⟩) := by
  unfold ensureNode
  by_cases h : hasNode g n
  · rw [if_pos h]
    rcases nodeOf_isSome_of_hasNode g n h with ⟨nd, hnd⟩
    rw [hnd]
    rfl
  · have h' : hasNode g n = false := by simpa using h
    rw [if_neg h, nodeOf_eq_none_of_not_hasNode g n h']
    exact nodeOf_append_single_self g n h'

theorem nodeOf_ensureNode_ne (g : NXGraph) (n m : Nat) (h : m ≠ n) :
    nodeOf (ensureNode g n) m = nodeOf g m := by
  unfold ensureNode
  by_cases hh : hasNode g n
  · rw [if_pos hh]
  · rw [if_neg hh]
    exact nodeOf_append_single_ne g n m h

theorem nodeOf_updateNodeAttrs_self (g : NXGraph) (n : Nat) (kvs : List (String × PropVal)) :
    nodeOf (updateNodeAttrs g n kvs) n =
      (nodeOf g n).map (fun nd => { nd with attr := applyKvs nd.attr kvs }) := by
  induction g with
  | nil => rfl
  | cons nd rest ih =>
    by_cases hi : nd.id = n
    · have : updateNodeAttrs (nd :: rest) n kvs =
          { nd with attr := applyKvs nd.attr kvs } :: updateNodeAttrs rest n kvs := by
        simp [updateNodeAttrs, applyKvs, hi]
      rw [this, nodeOf_cons_self _ _ _ (by simpa using hi), nodeOf_cons_self nd rest n hi]
      rfl
    · have : updateNodeAttrs (nd :: rest) n kvs = nd :: updateNodeAttrs rest n kvs := by
        simp [updateNodeAttrs, hi]
      rw [this, nodeOf_cons_ne _ _ _ hi, nodeOf_cons_ne nd rest n hi]
      exact ih

theorem nodeOf_updateNodeAttrs_ne (g : NXGraph) (n m : Nat) (kvs : List (String × PropVal))
    (h : m ≠ n) : nodeOf (updateNodeAttrs g n kvs) m = nodeOf g m := by
  induction g with
  | nil => rfl
  | cons nd rest ih =>
    by_cases hi : nd.id = n
    · have heq : updateNodeAttrs (nd :: rest) n kvs =
          { nd with attr := applyKvs nd.attr kvs } :: updateNodeAttrs rest n kvs := by
        simp [updateNodeAttrs, applyKvs, hi]
      have hne : ¬ nd.id = m := by rw [hi]; exact fun hc => h hc.symm
      rw [heq, nodeOf_cons_ne _ _ _ (by simpa using hne), nodeOf_cons_ne nd rest m hne]
      exact ih
    · have heq : updateNodeAttrs (nd :: rest) n kvs = nd :: updateNodeAttrs rest n kvs := by
        simp [updateNodeAttrs, hi]
      by_cases hm : nd.id = m
      · rw [heq, nodeOf_cons_self _ _ _ hm, nodeOf_cons_self nd rest m hm]
      · rw [heq, nodeOf_cons_ne _ _ _ hm, nodeOf_cons_ne nd rest m hm]
        exact ih

theorem nodeOf_map_id_preserving (g : NXGraph) (f : NXNode → NXNode)
    (hf : ∀ nd, (f nd).id = nd.id) (m : Nat) :
    nodeOf (g.map f) m = (nodeOf g m).map f := by
  induction g with
  | nil => rfl
  | cons nd rest ih =>
    by_cases hi : nd.id = m
    · rw [List.map_cons, nodeOf_cons_self _ _ _ (by rw [hf]; exact hi),
        nodeOf_cons_self nd rest m hi]
      rfl
    · rw [List.map_cons, nodeOf_cons_ne _ _ _ (by rw [hf]; exact hi),
        nodeOf_cons_ne nd rest m hi]
      exact ih

theorem idsOf_map_id_preserving (g : NXGraph) (f : NXNode → NXNode)
    (hf : ∀ nd, (f nd).id = nd.id) : idsOf (g.map f) = idsOf g := by
  simp only [idsOf, List.map_map]
  exact List.map_congr_left (fun nd _ => hf nd)

theorem hasNode_iff_mem_ids (g : NXGraph) (n : Nat) :
    hasNode g n = true ↔ n ∈ idsOf g := by
  rw [hasNode_iff_exists]
  simp [idsOf]

theorem idsOf_ensureNode (g : NXGraph) (n : Nat) :
    idsOf (ensureNode g n) = if hasNode g n then idsOf g else idsOf g ++ [n] := by
  unfold ensureNode
  by_cases h : hasNode g n
  · rw [if_pos h, if_pos h]
  · rw [if_neg h, if_neg h]
    simp [idsOf]

theorem idsOf_updateNodeAttrs (g : NXGraph) (n : Nat) (kvs : List (String × PropVal)) :
    idsOf (updateNodeAttrs g n kvs) = idsOf g := by
  apply idsOf_map_id_preserving
  intro nd
  by_cases hi : nd.id = n <;> simp [hi]

theorem idsOf_add_node (g : NXGraph) (n : Nat) (kvs : List (String × PropVal)) :
    idsOf (add_node g n kvs) = if hasNode g n then idsOf g else idsOf g ++ [n] := by
  rw [add_node, idsOf_updateNodeAttrs, idsOf_ensureNode]

theorem idsOf_add_edge (g : NXGraph) (u v : Nat) :
    idsOf (add_edge g u v) = idsOf (ensureNode (ensureNode g u) v) := by
  apply idsOf_map_id_preserving
  intro nd
  by_cases hi : nd.id = u <;> simp [hi]

theorem hasNode_updateNodeAttrs (g : NXGraph) (n m : Nat) (kvs : List (String × PropVal)) :
    hasNode (updateNodeAttrs g n kvs) m = hasNode g m := by
  by_cases h : hasNode g m
  · rw [h]
    rw [hasNode_iff_mem_ids] at h ⊢
    rwa [idsOf_updateNodeAttrs]
  · have h' : hasNode g m = false := by simpa using h
    rw [h']
    by_contra hc
    have hc' : hasNode (updateNodeAttrs g n kvs) m = true := by
      simpa using hc
    rw [hasNode_iff_mem_ids, idsOf_updateNodeAttrs, ← hasNode_iff_mem_ids] at hc'
    rw [hc'] at h'
    cases h'

theorem nodeAttr_ensureNode (g : NXGraph) (n m : Nat) (k : String) :
    nodeAttr (ensureNode g n) m k = nodeAttr g m k := by
  by_cases h : m = n
  · subst h
    rw [nodeAttr, nodeOf_ensureNode_self]
    rcases hg : nodeOf g m with _ | nd
    · simp [nodeAttr, hg, alGet]
    · simp [nodeAttr, hg]
  · rw [nodeAttr, nodeOf_ensureNode_ne g n m h, nodeAttr]

theorem nodeAttr_add_edge (g : NXGraph) (u v m : Nat) (k : String) :
    nodeAttr (add_edge g u v) m k = nodeAttr g m k := by
  have hpres : ∀ nd : NXNode,
      ((fun nd => if nd.id = u then
          { nd with succ := if v ∈ nd.succ then nd.succ else nd.succ ++ [v] }
        else nd) nd).id = nd.id := by
    intro nd; by_cases hi : nd.id = u <;> simp [hi]
  have hattr : ∀ nd : NXNode,
      ((fun nd => if nd.id = u then
          { nd with succ := if v ∈ nd.succ then nd.succ else nd.succ ++ [v] }
        else nd) nd).attr = nd.attr := by
    intro nd; by_cases hi : nd.id = u <;> simp [hi]
  unfold add_edge
  rw [nodeAttr, nodeOf_map_id_preserving _ _ hpres m,
    ← nodeAttr_ensureNode g u m k, ← nodeAttr_ensureNode (ensureNode g u) v m k, nodeAttr]
  rcases hg : nodeOf (ensureNode (ensureNode g u) v) m with _ | nd
  · rfl
  · simp [hattr nd]

theorem nodeAttr_add_node_self (g : NXGraph) (n : Nat) (kvs : List (String × PropVal))
    (k : String) :
    nodeAttr (add_node g n kvs) n k =
      alGet (applyKvs ((nodeOf g n).getD ⟨n, [], []⟩).attr kvs) k := by
  rw [add_node, nodeAttr, nodeOf_updateNodeAttrs_self, nodeOf_ensureNode_self]
  rfl

theorem nodeAttr_add_node_ne (g : NXGraph) (n m : Nat) (kvs : List (String × PropVal))
    (k : String) (h : m ≠ n) : nodeAttr (add_node g n kvs) m k = nodeAttr g m k := by
  rw [add_node, nodeAttr, nodeOf_updateNodeAttrs_ne _ _ _ _ h, ← nodeAttr,
    nodeAttr_ensureNode]

theorem hasNode_setAttrIfMem (g : NXGraph) (n : Nat) (k : String) (v : PropVal) (m : Nat) :
    hasNode (setAttrIfMem g n k v) m = hasNode g m := by
  unfold setAttrIfMem
  by_cases h : hasNode g n
  · rw [if_pos h, hasNode_updateNodeAttrs]
  · rw [if_neg h]

theorem nodeAttr_setAttrIfMem_ne_node (g : NXGraph) (n m : Nat) (k k' : String) (v : PropVal)
    (h : m ≠ n) : nodeAttr (setAttrIfMem g n k v) m k' = nodeAttr g m k' := by
  unfold setAttrIfMem
  by_cases hh : hasNode g n
  · rw [if_pos hh, nodeAttr, nodeOf_updateNodeAttrs_ne _ _ _ _ h, ← nodeAttr]
  · rw [if_neg hh]

theorem nodeAttr_setAttrIfMem_ne_key (g : NXGraph) (n m : Nat) (k k' : String) (v : PropVal)
    (h : k' ≠ k) : nodeAttr (setAttrIfMem g n k v) m k' = nodeAttr g m k' := by
  by_cases hm : m = n
  · subst hm
    unfold setAttrIfMem
    by_cases hh : hasNode g m
    · rw [if_pos hh, nodeAttr, nodeOf_updateNodeAttrs_self]
      rcases hg : nodeOf g m with _ | nd
      · simp [nodeAttr, hg]
      · simp only [Option.map_some']
        rw [nodeAttr, hg]
        show alGet (applyKvs nd.attr [(k, v)]) k' = _
        rw [applyKvs]
        simp only [List.foldl_cons, List.foldl_nil]
        rw [alGet_alSet_ne _ _ _ _ (fun hc => h hc.symm)]
        rfl
    · rw [if_neg hh]
  · exact nodeAttr_setAttrIfMem_ne_node g n m k k' v hm

theorem nodeAttr_setAttrIfMem_self (g : NXGraph) (n : Nat) (k : String) (v : PropVal) :
    nodeAttr (setAttrIfMem g n k v) n k =
      if hasNode g n = true then some v else Option.none := by
  unfold setAttrIfMem
  by_cases hh : hasNode g n
  · rw [if_pos hh, if_pos hh, nodeAttr, nodeOf_updateNodeAttrs_self]
    rcases nodeOf_isSome_of_hasNode g n hh with ⟨nd, hnd⟩
    rw [hnd]
    simp only [Option.map_some']
    show alGet (applyKvs nd.attr [(k, v)]) k = _
    rw [applyKvs]
    simp only [List.foldl_cons, List.foldl_nil]
    exact alGet_alSet_self _ _ _
  · rw [if_neg hh, if_neg hh, nodeAttr, nodeOf_eq_none_of_not_hasNode g n (by simpa using hh)]
    rfl

theorem hasNode_foldl_setAttrIfMem {α : Type} (l : List α) (fn : α → Nat) (fv : α → PropVal)
    (g : NXGraph) (k : String) (m : Nat) :
    hasNode (l.foldl (fun g x => setAttrIfMem g (fn x) k (fv x)) g) m = hasNode g m := by
  induction l generalizing g with
  | nil => rfl
  | cons x rest ih =>
    rw [List.foldl_cons, ih, hasNode_setAttrIfMem]

theorem nodeAttr_foldl_setAttrIfMem_ne_key {α : Type} (l : List α) (fn : α → Nat)
    (fv : α → PropVal) (g : NXGraph) (k k' : String) (m : Nat) (h : k' ≠ k) :
    nodeAttr (l.foldl (fun g x => setAttrIfMem g (fn x) k (fv x)) g) m k' =
      nodeAttr g m k' := by
  induction l generalizing g with
  | nil => rfl
  | cons x rest ih =>
    rw [List.foldl_cons, ih, nodeAttr_setAttrIfMem_ne_key _ _ _ _ _ _ h]

theorem nodeAttr_foldl_setAttrIfMem_not_mem {α : Type} (l : List α) (fn : α → Nat)
    (fv : α → PropVal) (g : NXGraph) (k k'' : String) (m : Nat) (h : ∀ x ∈ l, fn x ≠ m) :
    nodeAttr (l.foldl (fun g x => setAttrIfMem g (fn x) k (fv x)) g) m k'' =
      nodeAttr g m k'' := by
  induction l generalizing g with
  | nil => rfl
  | cons x rest ih =>
    rw [List.foldl_cons, ih _ (fun y hy => h y (List.mem_cons_of_mem _ hy)),
      nodeAttr_setAttrIfMem_ne_node _ _ _ _ _ _ (fun hc => h x (List.mem_cons_self _ _) hc.symm)]

theorem hasNode_set_node_attributes (g : NXGraph) (a : AttrVal) (k : String) (m : Nat) :
    hasNode (set_node_attributes g a k) m = hasNode g m := by
  rcases a with a | p | s
  · exact hasNode_foldl_setAttrIfMem a Prod.fst (fun x => .adjval x.2) g k m
  · exact hasNode_foldl_setAttrIfMem p Prod.fst Prod.snd g k m
  · show hasNode (g.map _) m = hasNode g m
    have hids : idsOf (g.map (fun nd => { nd with attr := alSet nd.attr k (.str s) }))
        = idsOf g :=
      idsOf_map_id_preserving g (fun nd => { nd with attr := alSet nd.attr k (.str s) })
        (fun nd => rfl)
    by_cases h : hasNode g m
    · rw [h, hasNode_iff_mem_ids, hids, ← hasNode_iff_mem_ids]
      exact h
    · have h' : hasNode g m = false := by simpa using h
      rw [h']
      by_contra hc
      have hc' : hasNode (g.map (fun nd => { nd with attr := alSet nd.attr k (.str s) })) m
          = true := by simpa using hc
      rw [hasNode_iff_mem_ids, hids, ← hasNode_iff_mem_ids, h'] at hc'
      cases hc'

theorem nodeAttr_set_node_attributes_ne_key (g : NXGraph) (a : AttrVal) (k k' : String)
    (m : Nat) (h : k' ≠ k) :
    nodeAttr (set_node_attributes g a k) m k' = nodeAttr g m k' := by
  rcases a with a | p | s
  · exact nodeAttr_foldl_setAttrIfMem_ne_key a Prod.fst (fun x => .adjval x.2) g k k' m h
  · exact nodeAttr_foldl_setAttrIfMem_ne_key p Prod.fst Prod.snd g k k' m h
  · show nodeAttr (g.map _) m k' = nodeAttr g m k'
    rw [nodeAttr, nodeOf_map_id_preserving g
      (fun nd => { nd with attr := alSet nd.attr k (.str s) }) (fun nd => rfl) m]
    rcases hg : nodeOf g m with _ | nd
    · rw [nodeAttr, hg]
      rfl
    · rw [nodeAttr, hg]
      simp only [Option.map_some']
      show alGet (alSet nd.attr k (.str s)) k' = alGet nd.attr k'
      exact alGet_alSet_ne _ _ _ _ (fun hc => h hc.symm)

theorem nodeAttr_foldl_props_self (p : List (Nat × PropVal)) (g : NXGraph) (k : String)
    (m : Nat) (hnodup : (p.map Prod.fst).Nodup) :
    nodeAttr (p.foldl (fun g x => setAttrIfMem g x.1 k x.2) g) m k =
      match alGet p m with
      | some v => if hasNode g m = true then some v else nodeAttr g m k
      | Option.none => nodeAttr g m k := by
  induction p generalizing g with
  | nil => rfl
  | cons nv rest ih =>
    rcases nv with ⟨n0, v0⟩
    simp only [List.map_cons, List.nodup_cons] at hnodup
    rw [List.foldl_cons]
    by_cases hm : n0 = m
    · subst hm
      have hnot : ∀ x ∈ rest, x.1 ≠ n0 := by
        intro x hx hc
        exact hnodup.1 (by rw [← hc]; exact List.mem_map.mpr ⟨x, hx, rfl⟩)
      rw [nodeAttr_foldl_setAttrIfMem_not_mem rest Prod.fst Prod.snd _ k k n0 hnot,
        nodeAttr_setAttrIfMem_self]
      have halg : alGet ((n0, v0) :: rest) n0 = some v0 := by simp [alGet]
      rw [halg]
      by_cases hh : hasNode g n0
      · simp [hh]
      · have h0 : nodeAttr g n0 k = Option.none := by
          rw [nodeAttr, nodeOf_eq_none_of_not_hasNode g n0 (by simpa using hh)]
          rfl
        simp [hh, h0]
    · have halg : alGet ((n0, v0) :: rest) m = alGet rest m := by
        simp only [alGet]
        rw [if_neg hm]
      rw [halg, ih _ hnodup.2, hasNode_setAttrIfMem,
        nodeAttr_setAttrIfMem_ne_node _ _ _ _ _ _ (fun hc => hm hc.symm)]

theorem nodeAttr_set_node_attributes_props_self (g : NXGraph) (p : List (Nat × PropVal))
    (k : String) (m : Nat) (hnodup : (p.map Prod.fst).Nodup) :
    nodeAttr (set_node_attributes g (.props p) k) m k =
      match alGet p m with
      | some v => if hasNode g m = true then some v else nodeAttr g m k
      | Option.none => nodeAttr g m k :=
  nodeAttr_foldl_props_self p g k m hnodup

/-! ## Lemmas: node-id uniqueness invariant -/

theorem gwf_nil : GWF [] := List.nodup_nil

theorem gwf_ensureNode (g : NXGraph) (n : Nat) (h : GWF g) : GWF (ensureNode g n) := by
  unfold GWF
  rw [idsOf_ensureNode]
  by_cases hh : hasNode g n
  · rw [if_pos hh]
    exact h
  · rw [if_neg hh]
    have hnm : n ∉ idsOf g := fun hc =>
      hh ((hasNode_iff_mem_ids g n).mpr hc)
    have h' : (idsOf g).Nodup := h
    simp [List.nodup_append, h', hnm]

theorem gwf_updateNodeAttrs (g : NXGraph) (n : Nat) (kvs : List (String × PropVal))
    (h : GWF g) : GWF (updateNodeAttrs g n kvs) := by
  unfold GWF
  rwa [idsOf_updateNodeAttrs]

theorem gwf_add_node (g : NXGraph) (n : Nat) (kvs : List (String × PropVal)) (h : GWF g) :
    GWF (add_node g n kvs) :=
  gwf_updateNodeAttrs _ _ _ (gwf_ensureNode g n h)

theorem gwf_add_edge (g : NXGraph) (u v : Nat) (h : GWF g) : GWF (add_edge g u v) := by
  unfold GWF
  rw [idsOf_add_edge]
  exact gwf_ensureNode _ _ (gwf_ensureNode g u h)

theorem idsOf_setAttrIfMem (g : NXGraph) (n : Nat) (k : String) (v : PropVal) :
    idsOf (setAttrIfMem g n k v) = idsOf g := by
  unfold setAttrIfMem
  by_cases h : hasNode g n
  · rw [if_pos h, idsOf_updateNodeAttrs]
  · rw [if_neg h]

theorem idsOf_foldl_setAttrIfMem {α : Type} (l : List α) (fn : α → Nat) (fv : α → PropVal)
    (g : NXGraph) (k : String) :
    idsOf (l.foldl (fun g x => setAttrIfMem g (fn x) k (fv x)) g) = idsOf g := by
  induction l generalizing g with
  | nil => rfl
  | cons x rest ih => rw [List.foldl_cons, ih, idsOf_setAttrIfMem]

theorem idsOf_set_node_attributes (g : NXGraph) (a : AttrVal) (k : String) :
    idsOf (set_node_attributes g a k) = idsOf g := by
  rcases a with a | p | s
  · exact idsOf_foldl_setAttrIfMem a Prod.fst (fun x => .adjval x.2) g k
  · exact idsOf_foldl_setAttrIfMem p Prod.fst Prod.snd g k
  · exact idsOf_map_id_preserving g
      (fun nd => { nd with attr := alSet nd.attr k (.str s) }) (fun nd => rfl)

theorem idsOf_applyAttrEntries (pop : Bool) (entries : List (String × AttrVal))
    (g : NXGraph) : idsOf (applyAttrEntries pop entries g) = idsOf g := by
  induction entries generalizing g with
  | nil => rfl
  | cons kv rest ih =>
    unfold applyAttrEntries at ih ⊢
    rw [List.foldl_cons]
    by_cases h : pop = false ∧ kv.1 = "graph"
    · rw [if_pos h]
      exact ih g
    · rw [if_neg h, ih, idsOf_set_node_attributes]

theorem gwf_from_dict_first (a : List (Nat × List Nat)) (g : NXGraph) (h : GWF g) :
    GWF (a.foldl (fun g p => ensureNode g p.1) g) := by
  induction a generalizing g with
  | nil => exact h
  | cons p rest ih =>
    rw [List.foldl_cons]
    exact ih _ (gwf_ensureNode g p.1 h)

theorem gwf_from_dict_edges (a : List (Nat × List Nat)) (g : NXGraph) (h : GWF g) :
    GWF (a.foldl (fun g p => p.2.foldl (fun g v => add_edge g p.1 v) g) g) := by
  induction a generalizing g with
  | nil => exact h
  | cons p rest ih =>
    rw [List.foldl_cons]
    refine ih _ ?_
    have : ∀ (vs : List Nat) (g : NXGraph), GWF g →
        GWF (vs.foldl (fun g v => add_edge g p.1 v) g) := by
      intro vs
      induction vs with
      | nil => intro g hg; exact hg
      | cons v rest ihv =>
        intro g hg
        rw [List.foldl_cons]
        exact ihv _ (gwf_add_edge g p.1 v hg)
    exact this p.2 g h

theorem gwf_from_dict_of_dicts (a : List (Nat × List Nat)) :
    GWF (from_dict_of_dicts a) :=
  gwf_from_dict_edges a _ (gwf_from_dict_first a [] gwf_nil)

theorem gwf_freshGateGraph : GWF freshGateGraph := by
  have : idsOf freshGateGraph = [0] := rfl
  unfold GWF
  rw [this]
  exact List.nodup_singleton 0

theorem gwf_get_gate_graph (attrs : List (String × AttrVal)) (pop : Bool)
    (g : NXGraph) (rest : List (String × AttrVal))
    (h : get_gate_graph attrs pop = .ok (g, rest)) : GWF g := by
  unfold get_gate_graph at h
  rcases ha : alGet attrs "graph" with _ | v
  · rw [ha] at h
    cases h
    exact gwf_freshGateGraph
  · rw [ha] at h
    rcases v with a | p | s
    · simp only [Except.ok.injEq, Prod.mk.injEq] at h
      have hg := h.1
      subst hg
      unfold GWF
      rw [idsOf_applyAttrEntries]
      exact gwf_from_dict_of_dicts a
    · cases h
    · cases h

/-! ## Lemmas: `get_node_attributes` as a dictionary -/

theorem nodeOf_of_mem_nodup (g : NXGraph) (nd : NXNode) (h : GWF g) (hmem : nd ∈ g) :
    nodeOf g nd.id = some nd := by
  induction g with
  | nil => cases hmem
  | cons nd0 rest ih =>
    have h' : GWF rest := by
      unfold GWF at h ⊢
      simp only [idsOf, List.map_cons, List.nodup_cons] at h
      exact h.2
    have hhead : nd0.id ∉ idsOf rest := by
      unfold GWF at h
      simp only [idsOf, List.map_cons, List.nodup_cons] at h
      exact h.1
    rcases List.mem_cons.mp hmem with heq | htail
    · subst heq
      exact nodeOf_cons_self nd rest nd.id rfl
    · have hne : ¬ nd0.id = nd.id := by
        intro hc
        exact hhead (hc ▸ List.mem_map.mpr ⟨nd, htail, rfl⟩)
      rw [nodeOf_cons_ne nd0 rest nd.id hne]
      exact ih h' htail

theorem get_node_attributes_cons (nd : NXNode) (rest : NXGraph) (k : String) :
    get_node_attributes (nd :: rest) k =
      match alGet nd.attr k with
      | some v => (nd.id, v) :: get_node_attributes rest k
      | Option.none => get_node_attributes rest k := by
  unfold get_node_attributes
  rcases h : alGet nd.attr k with _ | v
  · simp [List.filterMap_cons, h]
  · simp [List.filterMap_cons, h]

theorem alGet_get_node_attributes_none (g : NXGraph) (k : String) (m : Nat)
    (h : hasNode g m = false) : alGet (get_node_attributes g k) m = Option.none := by
  induction g with
  | nil => rfl
  | cons nd rest ih =>
    rw [hasNode_cons] at h
    simp only [Bool.or_eq_false_iff, decide_eq_false_iff_not] at h
    rw [get_node_attributes_cons]
    rcases ha : alGet nd.attr k with _ | v
    · exact ih h.2
    · show alGet ((nd.id, v) :: get_node_attributes rest k) m = Option.none
      simp only [alGet]
      rw [if_neg h.1]
      exact ih h.2

theorem alGet_get_node_attributes (g : NXGraph) (k : String) (m : Nat) (h : GWF g) :
    alGet (get_node_attributes g k) m = nodeAttr g m k := by
  induction g with
  | nil => rfl
  | cons nd rest ih =>
    have h' : GWF rest := by
      unfold GWF at h ⊢
      simp only [idsOf, List.map_cons, List.nodup_cons] at h
      exact h.2
    have hhead : nd.id ∉ idsOf rest := by
      unfold GWF at h
      simp only [idsOf, List.map_cons, List.nodup_cons] at h
      exact h.1
    rw [get_node_attributes_cons]
    by_cases hm : nd.id = m
    · have hrest : hasNode rest m = false := by
        by_contra hc
        have hc' : hasNode rest m = true := by simpa using hc
        exact hhead (hm ▸ (hasNode_iff_mem_ids rest m).mp hc')
      rcases ha : alGet nd.attr k with _ | v
      · rw [alGet_get_node_attributes_none rest k m hrest,
          nodeAttr, nodeOf_cons_self nd rest m hm]
        simp [ha]
      · show alGet ((nd.id, v) :: get_node_attributes rest k) m = _
        simp only [alGet]
        rw [if_pos hm, nodeAttr, nodeOf_cons_self nd rest m hm]
        simp [ha]
    · have hskip : nodeAttr (nd :: rest) m k = nodeAttr rest m k := by
        rw [nodeAttr, nodeOf_cons_ne nd rest m hm, nodeAttr]
      rcases ha : alGet nd.attr k with _ | v
      · rw [hskip]
        exact ih h'
      · show alGet ((nd.id, v) :: get_node_attributes rest k) m = _
        simp only [alGet]
        rw [if_neg hm, hskip]
        exact ih h'

theorem keys_get_node_attributes_sublist (g : NXGraph) (k : String) :
    ((get_node_attributes g k).map Prod.fst).Sublist (idsOf g) := by
  induction g with
  | nil => exact List.Sublist.refl _
  | cons nd rest ih =>
    rw [get_node_attributes_cons]
    rcases ha : alGet nd.attr k with _ | v
    · exact List.Sublist.trans ih (List.sublist_cons_self _ _)
    · show ((( nd.id, v) :: get_node_attributes rest k).map Prod.fst).Sublist
        (nd.id :: idsOf rest)
      simp only [List.map_cons]
      exact List.Sublist.cons₂ _ ih

theorem keys_get_node_attributes_nodup (g : NXGraph) (k : String) (h : GWF g) :
    ((get_node_attributes g k).map Prod.fst).Nodup :=
  List.Nodup.sublist (keys_get_node_attributes_sublist g k) h

theorem mem_get_node_attributes_iff (g : NXGraph) (k : String) (n : Nat) (v : PropVal)
    (h : GWF g) : (n, v) ∈ get_node_attributes g k ↔ nodeAttr g n k = some v := by
  constructor
  · intro hmem
    rcases List.mem_filterMap.mp hmem with ⟨nd, hnd, hval⟩
    rcases ha : alGet nd.attr k with _ | v'
    · rw [ha] at hval
      cases hval
    · rw [ha] at hval
      simp only [Option.map_some', Option.some.injEq, Prod.mk.injEq] at hval
      rw [nodeAttr, ← hval.1, nodeOf_of_mem_nodup g nd h hnd]
      simp [ha, hval.2]
  · intro hattr
    rw [nodeAttr] at hattr
    rcases hno : nodeOf g n with _ | nd
    · rw [hno] at hattr
      cases hattr
    · rw [hno] at hattr
      simp only [Option.some_bind] at hattr
      rcases nodeOf_mem_id g n nd hno with ⟨hmem, hid⟩
      exact List.mem_filterMap.mpr ⟨nd, hmem, by rw [hattr]; simp [hid]⟩

/-! ## Lemmas: Python `max` over step values -/

theorem le_foldl_max (l : List Nat) (a : Nat) : a ≤ l.foldl max a := by
  induction l generalizing a with
  | nil => exact Nat.le_refl a
  | cons x rest ih =>
    rw [List.foldl_cons]
    exact Nat.le_trans (Nat.le_max_left a x) (ih (max a x))

theorem foldl_max_mono (l : List Nat) (a b : Nat) (h : a ≤ b) :
    l.foldl max a ≤ l.foldl max b := by
  induction l generalizing a b with
  | nil => exact h
  | cons x rest ih =>
    rw [List.foldl_cons, List.foldl_cons]
    exact ih (max a x) (max b x) (max_le_max_right x h)

theorem le_maxD_of_mem (l : List Nat) (x : Nat) (h : x ∈ l) : x ≤ maxD l := by
  unfold maxD
  induction l generalizing x with
  | nil => cases h
  | cons y rest ih =>
    rcases List.mem_cons.mp h with heq | htail
    · subst heq
      rw [List.foldl_cons]
      exact Nat.le_trans (Nat.le_max_right 0 x) (le_foldl_max rest (max 0 x))
    · rw [List.foldl_cons]
      exact Nat.le_trans (ih x htail) (foldl_max_mono rest 0 (max 0 y) (Nat.zero_le _))

theorem foldl_max_le (l : List Nat) (a b : Nat) (ha : a ≤ b) (h : ∀ x ∈ l, x ≤ b) :
    l.foldl max a ≤ b := by
  induction l generalizing a with
  | nil => exact ha
  | cons x rest ih =>
    rw [List.foldl_cons]
    exact ih (max a x) (Nat.max_le.mpr ⟨ha, h x (List.mem_cons_self _ _)⟩)
      (fun y hy => h y (List.mem_cons_of_mem _ hy))

theorem maxD_le_of_forall (l : List Nat) (b : Nat) (h : ∀ x ∈ l, x ≤ b) : maxD l ≤ b :=
  foldl_max_le l 0 b (Nat.zero_le b) h

theorem maxD_eq_of_mem_of_le (l : List Nat) (m : Nat) (hmem : m ∈ l)
    (hle : ∀ x ∈ l, x ≤ m) : maxD l = m :=
  Nat.le_antisymm (maxD_le_of_forall l m hle) (le_maxD_of_mem l m hmem)

/-! ## Lemmas: `from_dict_of_dicts` reconstruction -/

theorem nilAttrsP_ensureNode (g : NXGraph) (n : Nat) (h : nilAttrsP g) :
    nilAttrsP (ensureNode g n) := by
  unfold ensureNode
  by_cases hh : hasNode g n
  · rwa [if_pos hh]
  · rw [if_neg hh]
    intro nd hnd
    rcases List.mem_append.mp hnd with hmem | hmem
    · exact h nd hmem
    · rcases List.mem_singleton.mp hmem with rfl
      rfl

theorem nilAttrsP_add_edge (g : NXGraph) (u v : Nat) (h : nilAttrsP g) :
    nilAttrsP (add_edge g u v) := by
  unfold add_edge
  intro nd hnd
  rcases List.mem_map.mp hnd with ⟨nd0, hnd0, heq⟩
  have h0 : nd0.attr = [] :=
    nilAttrsP_ensureNode _ v (nilAttrsP_ensureNode g u h) nd0 hnd0
  subst heq
  by_cases hi : nd0.id = u <;> simp [hi, h0]

theorem nilAttrsP_from_dict_of_dicts (a : List (Nat × List Nat)) :
    nilAttrsP (from_dict_of_dicts a) := by
  unfold from_dict_of_dicts
  have h1 : ∀ (a1 : List (Nat × List Nat)) (g : NXGraph), nilAttrsP g →
      nilAttrsP (a1.foldl (fun g p => ensureNode g p.1) g) := by
    intro a1
    induction a1 with
    | nil => intro g hg; exact hg
    | cons p rest ih =>
      intro g hg
      rw [List.foldl_cons]
      exact ih _ (nilAttrsP_ensureNode g p.1 hg)
  have h2 : ∀ (a1 : List (Nat × List Nat)) (g : NXGraph), nilAttrsP g →
      nilAttrsP (a1.foldl (fun g p => p.2.foldl (fun g v => add_edge g p.1 v) g) g) := by
    intro a1
    induction a1 with
    | nil => intro g hg; exact hg
    | cons p rest ih =>
      intro g hg
      rw [List.foldl_cons]
      refine ih _ ?_
      have h3 : ∀ (vs : List Nat) (g : NXGraph), nilAttrsP g →
          nilAttrsP (vs.foldl (fun g v => add_edge g p.1 v) g) := by
        intro vs
        induction vs with
        | nil => intro g hg2; exact hg2
        | cons v rest2 ihv =>
          intro g hg2
          rw [List.foldl_cons]
          exact ihv _ (nilAttrsP_add_edge g p.1 v hg2)
      exact h3 p.2 g hg
  exact h2 a _ (h1 a [] (fun nd hnd => absurd hnd (List.not_mem_nil nd)))

theorem nodeAttr_of_nilAttrsP (g : NXGraph) (m : Nat) (k : String) (h : nilAttrsP g) :
    nodeAttr g m k = Option.none := by
  rw [nodeAttr]
  rcases hg : nodeOf g m with _ | nd
  · rfl
  · rcases nodeOf_mem_id g m nd hg with ⟨hmem, _⟩
    show alGet nd.attr k = Option.none
    rw [h nd hmem]
    rfl

theorem hasNode_ensureNode_self (g : NXGraph) (n : Nat) :
    hasNode (ensureNode g n) n = true :=
  hasNode_of_nodeOf_some _ _ _ (nodeOf_ensureNode_self g n)

theorem hasNode_ensureNode_mono (g : NXGraph) (n m : Nat) (h : hasNode g m = true) :
    hasNode (ensureNode g n) m = true := by
  rw [hasNode_iff_mem_ids, idsOf_ensureNode]
  by_cases hh : hasNode g n
  · rw [if_pos hh]
    exact (hasNode_iff_mem_ids g m).mp h
  · rw [if_neg hh]
    exact List.mem_append_left _ ((hasNode_iff_mem_ids g m).mp h)

theorem hasNode_add_edge_mono (g : NXGraph) (u v m : Nat) (h : hasNode g m = true) :
    hasNode (add_edge g u v) m = true := by
  rw [hasNode_iff_mem_ids, idsOf_add_edge, ← hasNode_iff_mem_ids]
  exact hasNode_ensureNode_mono _ _ _ (hasNode_ensureNode_mono _ _ _ h)

theorem hasNode_from_dict_of_mem_keys (a : List (Nat × List Nat)) (m : Nat)
    (h : m ∈ a.map Prod.fst) : hasNode (from_dict_of_dicts a) m = true := by
  unfold from_dict_of_dicts
  have h1 : ∀ (a1 : List (Nat × List Nat)) (g : NXGraph),
      (hasNode g m = true ∨ m ∈ a1.map Prod.fst) →
      hasNode (a1.foldl (fun g p => ensureNode g p.1) g) m = true := by
    intro a1
    induction a1 with
    | nil =>
      intro g hg
      rcases hg with hg | hg
      · exact hg
      · cases hg
    | cons p rest ih =>
      intro g hg
      rw [List.foldl_cons]
      rcases hg with hg | hg
      · exact ih _ (Or.inl (hasNode_ensureNode_mono g p.1 m hg))
      · rw [List.map_cons] at hg
        rcases List.mem_cons.mp hg with heq | htail
        · subst heq
          exact ih _ (Or.inl (hasNode_ensureNode_self g p.1))
        · exact ih _ (Or.inr htail)
  have h2 : ∀ (a1 : List (Nat × List Nat)) (g : NXGraph), hasNode g m = true →
      hasNode (a1.foldl (fun g p => p.2.foldl (fun g v => add_edge g p.1 v) g) g) m
        = true := by
    intro a1
    induction a1 with
    | nil => intro g hg; exact hg
    | cons p rest ih =>
      intro g hg
      rw [List.foldl_cons]
      refine ih _ ?_
      have h3 : ∀ (vs : List Nat) (g : NXGraph), hasNode g m = true →
          hasNode (vs.foldl (fun g v => add_edge g p.1 v) g) m = true := by
        intro vs
        induction vs with
        | nil => intro g hg2; exact hg2
        | cons v rest2 ihv =>
          intro g hg2
          rw [List.foldl_cons]
          exact ihv _ (hasNode_add_edge_mono g p.1 v m hg2)
      exact h3 p.2 g hg
  exact h2 a _ (h1 a [] (Or.inr h))

theorem keys_to_dict_of_dicts (g : NXGraph) :
    (to_dict_of_dicts g).map Prod.fst = idsOf g := by
  unfold to_dict_of_dicts idsOf
  rw [List.map_map]
  rfl

theorem hasNode_from_to_dict (g : NXGraph) (m : Nat) (h : hasNode g m = true) :
    hasNode (from_dict_of_dicts (to_dict_of_dicts g)) m = true :=
  hasNode_from_dict_of_mem_keys _ m
    (by rw [keys_to_dict_of_dicts]; exact (hasNode_iff_mem_ids g m).mp h)

/-! ## Lemmas: the attribute-application loop of `get_gate_graph` -/

theorem nodeAttr_setAttrIfMem_char (g : NXGraph) (n : Nat) (k : String) (v : PropVal)
    (m : Nat) :
    nodeAttr (setAttrIfMem g n k v) m k =
      if m = n ∧ hasNode g n = true then some v else nodeAttr g m k := by
  by_cases hm : m = n
  · subst hm
    rw [nodeAttr_setAttrIfMem_self]
    by_cases hh : hasNode g m
    · rw [if_pos hh, if_pos ⟨rfl, hh⟩]
    · rw [if_neg hh, if_neg (fun hc => hh hc.2),
        nodeAttr, nodeOf_eq_none_of_not_hasNode g m (by simpa using hh)]
      rfl
  · rw [nodeAttr_setAttrIfMem_ne_node g n m k k v hm, if_neg (fun hc => hm hc.1)]

theorem nodeAttr_raw_self (g : NXGraph) (t : String) (k : String) (m : Nat) :
    nodeAttr (set_node_attributes g (.raw t) k) m k =
      if hasNode g m = true then some (.str t) else Option.none := by
  show nodeAttr (g.map _) m k = _
  rw [nodeAttr, nodeOf_map_id_preserving g
    (fun nd => { nd with attr := alSet nd.attr k (.str t) }) (fun nd => rfl) m]
  rcases hg : nodeOf g m with _ | nd
  · rw [if_neg]
    · rfl
    · intro hc
      rcases nodeOf_isSome_of_hasNode g m hc with ⟨nd, hnd⟩
      rw [hnd] at hg
      cases hg
  · rw [if_pos (hasNode_of_nodeOf_some g m nd hg)]
    simp only [Option.map_some']
    show alGet (alSet nd.attr k (.str t)) k = _
    rw [alGet_alSet_self]

theorem foldl_setAttrIfMem_key_congr {α : Type} (l : List α) (fn : α → Nat)
    (fv : α → PropVal) (k : String) (g g' : NXGraph)
    (hh : ∀ x, hasNode g' x = hasNode g x)
    (ha : ∀ x, nodeAttr g' x k = nodeAttr g x k) :
    ∀ m, nodeAttr (l.foldl (fun g x => setAttrIfMem g (fn x) k (fv x)) g') m k =
      nodeAttr (l.foldl (fun g x => setAttrIfMem g (fn x) k (fv x)) g) m k := by
  induction l generalizing g g' with
  | nil => exact ha
  | cons x rest ih =>
    rw [List.foldl_cons, List.foldl_cons]
    refine ih _ _ (fun y => by rw [hasNode_setAttrIfMem, hasNode_setAttrIfMem, hh])
      (fun y => ?_)
    rw [nodeAttr_setAttrIfMem_char, nodeAttr_setAttrIfMem_char, hh, ha]

theorem set_node_attributes_key_congr (v : AttrVal) (k : String) (g g' : NXGraph)
    (hh : ∀ x, hasNode g' x = hasNode g x)
    (ha : ∀ x, nodeAttr g' x k = nodeAttr g x k) (m : Nat) :
    nodeAttr (set_node_attributes g' v k) m k = nodeAttr (set_node_attributes g v k) m k := by
  rcases v with a | p | s
  · exact foldl_setAttrIfMem_key_congr a Prod.fst (fun x => .adjval x.2) k g g' hh ha m
  · exact foldl_setAttrIfMem_key_congr p Prod.fst Prod.snd k g g' hh ha m
  · rw [nodeAttr_raw_self, nodeAttr_raw_self, hh]

theorem applyAttrEntries_cons (pop : Bool) (kv : String × AttrVal)
    (rest : List (String × AttrVal)) (g : NXGraph) :
    applyAttrEntries pop (kv :: rest) g =
      applyAttrEntries pop rest
        (if pop = false ∧ kv.1 = "graph" then g else set_node_attributes g kv.2 kv.1) := by
  unfold applyAttrEntries
  rw [List.foldl_cons]

theorem hasNode_applyAttrEntries (pop : Bool) (entries : List (String × AttrVal))
    (g : NXGraph) (m : Nat) :
    hasNode (applyAttrEntries pop entries g) m = hasNode g m := by
  by_cases h : hasNode g m
  · rw [h, hasNode_iff_mem_ids, idsOf_applyAttrEntries, ← hasNode_iff_mem_ids]
    exact h
  · have h' : hasNode g m = false := by simpa using h
    rw [h']
    by_contra hc
    have hc' : hasNode (applyAttrEntries pop entries g) m = true := by simpa using hc
    rw [hasNode_iff_mem_ids, idsOf_applyAttrEntries, ← hasNode_iff_mem_ids, h'] at hc'
    cases hc'

theorem nodeAttr_applyAttrEntries_no_key (entries : List (String × AttrVal))
    (g : NXGraph) (m : Nat) (s : String) (h : ∀ e ∈ entries, e.1 ≠ s) :
    nodeAttr (applyAttrEntries false entries g) m s = nodeAttr g m s := by
  induction entries generalizing g with
  | nil => rfl
  | cons kv rest ih =>
    rw [applyAttrEntries_cons]
    by_cases hskip : (false : Bool) = false ∧ kv.1 = "graph"
    · rw [if_pos hskip]
      exact ih g (fun e he => h e (List.mem_cons_of_mem _ he))
    · rw [if_neg hskip,
        ih _ (fun e he => h e (List.mem_cons_of_mem _ he)),
        nodeAttr_set_node_attributes_ne_key g kv.2 kv.1 s m
          (fun hc => h kv (List.mem_cons_self _ _) hc.symm)]

theorem nodeAttr_applyAttrEntries_extract (entries : List (String × AttrVal))
    (g : NXGraph) (m : Nat) (s : String) (hs : s ≠ "graph")
    (hnodup : (entries.map Prod.fst).Nodup) :
    nodeAttr (applyAttrEntries false entries g) m s =
      match alGet entries s with
      | some v => nodeAttr (set_node_attributes g v s) m s
      | Option.none => nodeAttr g m s := by
  induction entries generalizing g with
  | nil => rfl
  | cons kv rest ih =>
    rcases kv with ⟨k0, v0⟩
    simp only [List.map_cons, List.nodup_cons] at hnodup
    rw [applyAttrEntries_cons]
    by_cases hk : k0 = s
    · subst hk
      have hskip : ¬ ((false : Bool) = false ∧ k0 = "graph") := fun hc => hs hc.2
      rw [if_neg hskip]
      have halg : alGet ((k0, v0) :: rest) k0 = some v0 := by simp [alGet]
      rw [halg]
      exact nodeAttr_applyAttrEntries_no_key rest _ m k0
        (fun e he hc => hnodup.1 (by rw [← hc]; exact List.mem_map.mpr ⟨e, he, rfl⟩))
    · have halg : alGet ((k0, v0) :: rest) s = alGet rest s := by
        simp only [alGet]
        rw [if_neg hk]
      rw [halg]
      by_cases hskip : (false : Bool) = false ∧ k0 = "graph"
      · rw [if_pos hskip]
        exact ih g hnodup.2
      · rw [if_neg hskip, ih _ hnodup.2]
        rcases hr : alGet rest s with _ | v
        · exact nodeAttr_set_node_attributes_ne_key g v0 k0 s m (fun hc => hk hc.symm)
        · exact set_node_attributes_key_congr v s g _
            (fun x => hasNode_set_node_attributes g v0 k0 x)
            (fun x => nodeAttr_set_node_attributes_ne_key g v0 k0 s x
              (fun hc => hk hc.symm)) m

/-! ## Lemmas: the persisted attribute writes of `gate_label_type` -/

theorem writeGraphAttrs_unfold (a : List (String × AttrVal)) (g : NXGraph) :
    writeGraphAttrs a g =
      alSet (alSet (alSet (alSet (alSet (alSet (alSet (alSet
        (alSet a "graph" (.adj (to_dict_of_dicts g)))
        "channel" (.props (get_node_attributes g "channel")))
        "threshold" (.props (get_node_attributes g "threshold")))
        "intensity_key" (.props (get_node_attributes g "intensity_key")))
        "override" (.props (get_node_attributes g "override")))
        "label_name" (.props (get_node_attributes g "label_name")))
        "label_id" (.props (get_node_attributes g "label_id")))
        "step" (.props (get_node_attributes g "step")))
        "num_cells" (.props (get_node_attributes g "num_cells")) := rfl

theorem alGet_writeGraphAttrs_graph (a : List (String × AttrVal)) (g : NXGraph) :
    alGet (writeGraphAttrs a g) "graph" = some (.adj (to_dict_of_dicts g)) := by
  rw [writeGraphAttrs_unfold,
    alGet_alSet_ne _ _ _ _ (by decide), alGet_alSet_ne _ _ _ _ (by decide),
    alGet_alSet_ne _ _ _ _ (by decide), alGet_alSet_ne _ _ _ _ (by decide),
    alGet_alSet_ne _ _ _ _ (by decide), alGet_alSet_ne _ _ _ _ (by decide),
    alGet_alSet_ne _ _ _ _ (by decide), alGet_alSet_ne _ _ _ _ (by decide),
    alGet_alSet_self]

theorem alGet_writeGraphAttrs_step (a : List (String × AttrVal)) (g : NXGraph) :
    alGet (writeGraphAttrs a g) "step" = some (.props (get_node_attributes g "step")) := by
  rw [writeGraphAttrs_unfold, alGet_alSet_ne _ _ _ _ (by decide), alGet_alSet_self]

theorem alGet_writeGraphAttrs_num_cells (a : List (String × AttrVal)) (g : NXGraph) :
    alGet (writeGraphAttrs a g) "num_cells"
      = some (.props (get_node_attributes g "num_cells")) := by
  rw [writeGraphAttrs_unfold, alGet_alSet_self]

theorem keys_nodup_writeGraphAttrs (a : List (String × AttrVal)) (g : NXGraph)
    (h : (a.map Prod.fst).Nodup) : ((writeGraphAttrs a g).map Prod.fst).Nodup := by
  rw [writeGraphAttrs_unfold]
  exact keys_nodup_alSet _ _ _ (keys_nodup_alSet _ _ _ (keys_nodup_alSet _ _ _
    (keys_nodup_alSet _ _ _ (keys_nodup_alSet _ _ _ (keys_nodup_alSet _ _ _
      (keys_nodup_alSet _ _ _ (keys_nodup_alSet _ _ _ (keys_nodup_alSet _ _ _ h))))))))

/-- After `gate_label_type` saves graph `g2` into the attribute store, loading
the graph back (`get_gate_graph`, `pop=False`) yields a graph whose `"step"`
node attribute agrees with `g2` at every node id. -/
theorem nodeAttr_step_roundtrip (attrs0 : List (String × AttrVal)) (g2 : NXGraph)
    (hkeys : (attrs0.map Prod.fst).Nodup) (hg2 : GWF g2) (G : NXGraph)
    (rest : List (String × AttrVal))
    (hload : get_gate_graph (writeGraphAttrs attrs0 g2) false = .ok (G, rest)) :
    ∀ m, nodeAttr G m "step" = nodeAttr g2 m "step" := by
  intro m
  have hG : G = applyAttrEntries false (writeGraphAttrs attrs0 g2)
      (from_dict_of_dicts (to_dict_of_dicts g2)) := by
    unfold get_gate_graph at hload
    rw [alGet_writeGraphAttrs_graph] at hload
    simp only [Except.ok.injEq, Prod.mk.injEq] at hload
    exact hload.1.symm
  subst hG
  rw [nodeAttr_applyAttrEntries_extract _ _ m "step" (by decide)
    (keys_nodup_writeGraphAttrs attrs0 g2 hkeys), alGet_writeGraphAttrs_step]
  have hpnodup : ((get_node_attributes g2 "step").map Prod.fst).Nodup :=
    keys_get_node_attributes_nodup g2 "step" hg2
  show nodeAttr (set_node_attributes (from_dict_of_dicts (to_dict_of_dicts g2))
      (.props (get_node_attributes g2 "step")) "step") m "step" = nodeAttr g2 m "step"
  rw [nodeAttr_set_node_attributes_props_self _ _ _ _ hpnodup,
    alGet_get_node_attributes g2 "step" m hg2]
  rcases hv : nodeAttr g2 m "step" with _ | v
  · exact nodeAttr_of_nilAttrsP _ m "step" (nilAttrsP_from_dict_of_dicts _)
  · have hmem : hasNode g2 m = true := by
      rw [nodeAttr] at hv
      rcases hno : nodeOf g2 m with _ | nd
      · rw [hno] at hv
        cases hv
      · exact hasNode_of_nodeOf_some g2 m nd hno
    show (if hasNode (from_dict_of_dicts (to_dict_of_dicts g2)) m = true then some v
      else nodeAttr (from_dict_of_dicts (to_dict_of_dicts g2)) m "step") = some v
    rw [if_pos (hasNode_from_to_dict g2 m hmem)]

/-! ## Lemmas: `pyMaxSteps` -/

theorem bool_eq_of_iff (a b : Bool) (h : a = true ↔ b = true) : a = b := by
  cases a <;> cases b <;> simp_all

theorem isEmpty_true_iff {α : Type} (l : List α) : l.isEmpty = true ↔ ∀ x, x ∉ l := by
  cases l with
  | nil => simp
  | cons x xs =>
    simp only [List.isEmpty_cons]
    constructor
    · intro h
      cases h
    · intro h
      exact absurd (List.mem_cons_self x xs) (h x)

theorem mem_stepNatsOf_iff (g : NXGraph) (hg : GWF g) (x : Nat) :
    x ∈ stepNatsOf g ↔ ∃ n, nodeAttr g n "step" = some (.nat x) := by
  unfold stepNatsOf
  rw [List.mem_filterMap]
  constructor
  · rintro ⟨⟨n, v⟩, hmem, hval⟩
    have hattr := (mem_get_node_attributes_iff g "step" n v hg).mp hmem
    rcases v with k | i | s | b | l | _ <;> simp at hval
    subst hval
    exact ⟨n, hattr⟩
  · rintro ⟨n, hattr⟩
    exact ⟨(n, .nat x), (mem_get_node_attributes_iff g "step" n _ hg).mpr hattr, rfl⟩

theorem mem_step_entries_congr (g g' : NXGraph) (hg : GWF g) (hg' : GWF g')
    (h : ∀ n, nodeAttr g' n "step" = nodeAttr g n "step") (nv : Nat × PropVal) :
    nv ∈ get_node_attributes g' "step" ↔ nv ∈ get_node_attributes g "step" := by
  rcases nv with ⟨n, v⟩
  rw [mem_get_node_attributes_iff _ _ _ _ hg', mem_get_node_attributes_iff _ _ _ _ hg, h]

theorem pyMaxSteps_congr (g g' : NXGraph) (hg : GWF g) (hg' : GWF g')
    (h : ∀ n, nodeAttr g' n "step" = nodeAttr g n "step") :
    pyMaxSteps g' = pyMaxSteps g := by
  have hmem := mem_step_entries_congr g g' hg hg' h
  have he : (get_node_attributes g' "step").isEmpty
      = (get_node_attributes g "step").isEmpty := by
    apply bool_eq_of_iff
    rw [isEmpty_true_iff, isEmpty_true_iff]
    constructor <;> intro hf x hx
    · exact hf x ((hmem x).mpr hx)
    · exact hf x ((hmem x).mp hx)
  have hall : (get_node_attributes g' "step").all isNatStep
      = (get_node_attributes g "step").all isNatStep := by
    apply bool_eq_of_iff
    rw [List.all_eq_true, List.all_eq_true]
    constructor <;> intro hf x hx
    · exact hf x ((hmem x).mpr hx)
    · exact hf x ((hmem x).mp hx)
  have hmax : maxD (stepNatsOf g') = maxD (stepNatsOf g) := by
    have hsm : ∀ x, x ∈ stepNatsOf g' ↔ x ∈ stepNatsOf g := by
      intro x
      rw [mem_stepNatsOf_iff g' hg', mem_stepNatsOf_iff g hg]
      constructor
      · rintro ⟨n, hn⟩
        exact ⟨n, by rw [← h]; exact hn⟩
      · rintro ⟨n, hn⟩
        exact ⟨n, by rw [h]; exact hn⟩
    exact Nat.le_antisymm
      (maxD_le_of_forall _ _ (fun x hx => le_maxD_of_mem _ x ((hsm x).mp hx)))
      (maxD_le_of_forall _ _ (fun x hx => le_maxD_of_mem _ x ((hsm x).mpr hx)))
  unfold pyMaxSteps
  rw [he, hall, hmax]

theorem nodeAttr_gate_g2_step (g1 : NXGraph) (obj : Container) (L P : Nat) (ch : String)
    (th : Int) (key : String) (ov : Bool) (st nc : Nat) (m : Nat) :
    nodeAttr (add_edge (add_node g1 L (gateNodeKvs obj L ch th key ov st nc)) P L)
        m "step" =
      if m = L then some (.nat st) else nodeAttr g1 m "step" := by
  rw [nodeAttr_add_edge]
  by_cases hm : m = L
  · subst hm
    rw [if_pos rfl, nodeAttr_add_node_self]
    show alGet (applyKvs _ (gateNodeKvs obj m ch th key ov st nc)) "step"
      = some (.nat st)
    unfold applyKvs gateNodeKvs
    simp only [List.foldl_cons, List.foldl_nil]
    rw [alGet_alSet_ne _ _ _ _ (by decide), alGet_alSet_self]
  · rw [if_neg hm, nodeAttr_add_node_ne _ _ _ _ _ hm]

theorem nodeAttr_gate_g2_num_cells (g1 : NXGraph) (obj : Container) (L P : Nat)
    (ch : String) (th : Int) (key : String) (ov : Bool) (st nc : Nat) (m : Nat) :
    nodeAttr (add_edge (add_node g1 L (gateNodeKvs obj L ch th key ov st nc)) P L)
        m "num_cells" =
      if m = L then some (.nat nc) else nodeAttr g1 m "num_cells" := by
  rw [nodeAttr_add_edge]
  by_cases hm : m = L
  · subst hm
    rw [if_pos rfl, nodeAttr_add_node_self]
    show alGet (applyKvs _ (gateNodeKvs obj m ch th key ov st nc)) "num_cells"
      = some (.nat nc)
    unfold applyKvs gateNodeKvs
    simp only [List.foldl_cons, List.foldl_nil]
    rw [alGet_alSet_self]
  · rw [if_neg hm, nodeAttr_add_node_ne _ _ _ _ _ hm]

theorem pyMaxSteps_gate_g2 (g1 : NXGraph) (obj : Container) (L P : Nat) (ch : String)
    (th : Int) (key : String) (ov : Bool) (nc mx : Nat) (hg1 : GWF g1)
    (hmx : pyMaxSteps g1 = .ok mx) :
    pyMaxSteps (add_edge (add_node g1 L (gateNodeKvs obj L ch th key ov (mx + 1) nc))
      P L) = .ok (mx + 1) := by
  have hg2 : GWF (add_edge (add_node g1 L (gateNodeKvs obj L ch th key ov (mx + 1) nc))
      P L) := gwf_add_edge _ _ _ (gwf_add_node _ _ _ hg1)
  have hstep := nodeAttr_gate_g2_step g1 obj L P ch th key ov (mx + 1) nc
  unfold pyMaxSteps at hmx
  by_cases he : (get_node_attributes g1 "step").isEmpty = true
  · rw [if_pos he] at hmx
    cases hmx
  · rw [if_neg he] at hmx
    by_cases ha : (get_node_attributes g1 "step").all isNatStep = true
    · rw [if_pos ha] at hmx
      injection hmx with hmx'
      have hmemL : (L, PropVal.nat (mx + 1))
          ∈ get_node_attributes (add_edge (add_node g1 L
            (gateNodeKvs obj L ch th key ov (mx + 1) nc)) P L) "step" :=
        (mem_get_node_attributes_iff _ _ _ _ hg2).mpr (by rw [hstep L]; simp)
      have he2 : (get_node_attributes (add_edge (add_node g1 L
          (gateNodeKvs obj L ch th key ov (mx + 1) nc)) P L) "step").isEmpty = false := by
        by_contra hc
        have hc' := (isEmpty_true_iff _).mp (by simpa using hc)
        exact hc' _ hmemL
      have ha2 : (get_node_attributes (add_edge (add_node g1 L
          (gateNodeKvs obj L ch th key ov (mx + 1) nc)) P L) "step").all isNatStep
          = true := by
        rw [List.all_eq_true]
        rintro ⟨n, v⟩ hmem'
        have hattr := (mem_get_node_attributes_iff _ _ _ _ hg2).mp hmem'
        rw [hstep n] at hattr
        by_cases hn : n = L
        · rw [if_pos hn] at hattr
          injection hattr with hv
          rw [← hv]
          rfl
        · rw [if_neg hn] at hattr
          exact (List.all_eq_true.mp ha) (n, v)
            ((mem_get_node_attributes_iff _ _ _ _ hg1).mpr hattr)
      have hmax2 : maxD (stepNatsOf (add_edge (add_node g1 L
          (gateNodeKvs obj L ch th key ov (mx + 1) nc)) P L)) = mx + 1 := by
        apply maxD_eq_of_mem_of_le
        · exact (mem_stepNatsOf_iff _ hg2 _).mpr ⟨L, by rw [hstep L]; simp⟩
        · intro x hx
          rcases (mem_stepNatsOf_iff _ hg2 x).mp hx with ⟨n, hn⟩
          rw [hstep n] at hn
          by_cases hnL : n = L
          · rw [if_pos hnL] at hn
            injection hn with hn'
            injection hn' with hn''
            rw [hn'']
          · rw [if_neg hnL] at hn
            have hx1 : x ∈ stepNatsOf g1 := (mem_stepNatsOf_iff _ hg1 x).mpr ⟨n, hn⟩
            have := le_maxD_of_mem _ x hx1
            rw [hmx'] at this
            exact Nat.le_succ_of_le this
      unfold pyMaxSteps
      rw [he2, ha2, hmax2]
      rfl
    · rw [if_neg ha] at hmx
      cases hmx

/-! ## Lemmas: inversion of a successful `gate_label_type` call -/

theorem gate_inl_inversion (obj obj' : Container) (L P : Nat) (ch key : String) (th : Int)
    (ov : Bool)
    (h : gate_label_type obj (Sum.inl L) ch th key ov (Sum.inl P) = .ok obj') :
    ∃ g1 r1 mx av, L ∈ obj.labels ∧ get_gate_graph obj.attrs false = .ok (g1, r1) ∧
      pyMaxSteps g1 = .ok mx ∧ availableCells obj g1 P ov = .ok av ∧
      obj' = commitGate obj g1 L P ch th key ov (mx + 1)
        (gatedCells obj key ch th)
        ((gatedCells obj key ch th).filter (fun c => c ∈ av)) := by
  unfold gate_label_type at h
  simp only [resolveRef] at h
  split at h
  · split at h
    · cases h
    · split at h
      · cases h
      · split at h
        · cases h
        · simp only [Except.ok.injEq] at h
          exact ⟨_, _, _, _, by assumption, by assumption, by assumption, by assumption,
            h.symm⟩
  · cases h

/-- Claim C2: for every successful `gate` call, the GatingNode appended for
`label_id` records `num_cells` equal to the cardinality of `cells_gated` (the
raw count of cells whose intensity on the channel strictly exceeds the
threshold), not the post-intersection selected count. -/
theorem gate_num_cells_records_raw_count (obj obj' : Container) (L P : Nat)
    (ch key : String) (th : Int) (ov : Bool)
    (h : gate_label_type obj (Sum.inl L) ch th key ov (Sum.inl P) = .ok obj') :
    persistedNodeProp obj' "num_cells" L
      = some (PropVal.nat (gatedCells obj key ch th).length) := by
  rcases gate_inl_inversion obj obj' L P ch key th ov h with
    ⟨g1, r1, mx, av, hmem, hg, hmx, hav, hobj'⟩
  subst hobj'
  have hg1 : GWF g1 := gwf_get_gate_graph obj.attrs false g1 r1 hg
  have hg2 : GWF (add_edge (add_node g1 L (gateNodeKvs obj L ch th key ov (mx + 1)
      (gatedCells obj key ch th).length)) P L) :=
    gwf_add_edge _ _ _ (gwf_add_node _ _ _ hg1)
  unfold persistedNodeProp commitGate
  simp only
  rw [alGet_writeGraphAttrs_num_cells]
  show alGet (get_node_attributes (add_edge (add_node g1 L (gateNodeKvs obj L ch th key ov
      (mx + 1) (gatedCells obj key ch th).length)) P L) "num_cells") L
    = some (PropVal.nat (gatedCells obj key ch th).length)
  rw [alGet_get_node_attributes _ _ _ hg2, nodeAttr_gate_g2_num_cells, if_pos rfl]

/-- Claim C3: the step recorded on the newly added GatingNode equals
`max(step over all existing nodes) + 1` (that is, the pre-call `next_step()`
value `n`), and `next_step()` strictly increases by exactly 1 after each
successful `gate` call. -/
theorem gate_next_step_increments (obj obj' : Container) (L P : Nat) (ch key : String)
    (th : Int) (ov : Bool) (n : Nat)
    (hwf : (obj.attrs.map Prod.fst).Nodup)
    (h : gate_label_type obj (Sum.inl L) ch th key ov (Sum.inl P) = .ok obj')
    (hn : nextStepOf obj = some n) :
    persistedNodeProp obj' "step" L = some (PropVal.nat n)
      ∧ nextStepOf obj' = some (n + 1) := by
  rcases gate_inl_inversion obj obj' L P ch key th ov h with
    ⟨g1, r1, mx, av, hmem, hg, hmx, hav, hobj'⟩
  subst hobj'
  have hg1 : GWF g1 := gwf_get_gate_graph obj.attrs false g1 r1 hg
  have hn' : n = mx + 1 := by
    unfold nextStepOf at hn
    rw [hg] at hn
    simp only [hmx] at hn
    injection hn with hn2
    exact hn2.symm
  subst hn'
  have hg2 : GWF (add_edge (add_node g1 L (gateNodeKvs obj L ch th key ov (mx + 1)
      (gatedCells obj key ch th).length)) P L) :=
    gwf_add_edge _ _ _ (gwf_add_node _ _ _ hg1)
  constructor
  · unfold persistedNodeProp commitGate
    simp only
    rw [alGet_writeGraphAttrs_step]
    show alGet (get_node_attributes (add_edge (add_node g1 L (gateNodeKvs obj L ch th key
        ov (mx + 1) (gatedCells obj key ch th).length)) P L) "step") L
      = some (PropVal.nat (mx + 1))
    rw [alGet_get_node_attributes _ _ _ hg2, nodeAttr_gate_g2_step, if_pos rfl]
  · have hload : get_gate_graph ((commitGate obj g1 L P ch th key ov (mx + 1)
        (gatedCells obj key ch th)
        ((gatedCells obj key ch th).filter (fun c => c ∈ av))).attrs) false
        = .ok (applyAttrEntries false
            (writeGraphAttrs obj.attrs (add_edge (add_node g1 L (gateNodeKvs obj L ch th
              key ov (mx + 1) (gatedCells obj key ch th).length)) P L))
            (from_dict_of_dicts (to_dict_of_dicts (add_edge (add_node g1 L (gateNodeKvs
              obj L ch th key ov (mx + 1) (gatedCells obj key ch th).length)) P L))),
          writeGraphAttrs obj.attrs (add_edge (add_node g1 L (gateNodeKvs obj L ch th
            key ov (mx + 1) (gatedCells obj key ch th).length)) P L)) := by
      unfold commitGate
      simp only
      unfold get_gate_graph
      rw [alGet_writeGraphAttrs_graph]
      rfl
    have hGwf : GWF (applyAttrEntries false
        (writeGraphAttrs obj.attrs (add_edge (add_node g1 L (gateNodeKvs obj L ch th
          key ov (mx + 1) (gatedCells obj key ch th).length)) P L))
        (from_dict_of_dicts (to_dict_of_dicts (add_edge (add_node g1 L (gateNodeKvs
          obj L ch th key ov (mx + 1) (gatedCells obj key ch th).length)) P L)))) :=
      gwf_get_gate_graph _ false _ _ hload
    have hpoint := nodeAttr_step_roundtrip obj.attrs _ hwf hg2 _ _ hload
    have hcongr := pyMaxSteps_congr _ _ hg2 hGwf hpoint
    have hsteps := pyMaxSteps_gate_g2 g1 obj L P ch th key ov
      (gatedCells obj key ch th).length mx hg1 hmx
    unfold nextStepOf
    rw [hload]
    simp only [hcongr, hsteps]

/-- Claim C1, amended: after a successful
`gate(label_id, ..., override=False, parent=P)`, every cell assigned to
`label_id` was, before the call, assigned either to `P` (the newly selected
cells) or already to `label_id` (cells gated earlier keep their assignment).
The original claim `cells_for(label_id) ⊆ pre-call cells_for(P)` drops the
second disjunct and fails when `label_id` already had cells outside `P`'s
pool (see the counterexample). -/
theorem gate_cells_subset_parent_or_prior (obj obj' : Container) (L P : Nat)
    (ch key : String) (th : Int)
    (h : gate_label_type obj (Sum.inl L) ch th key false (Sum.inl P) = .ok obj') :
    ∀ c, c ∈ cellsFor obj' L → c ∈ cellsFor obj P ∨ c ∈ cellsFor obj L := by
  rcases gate_inl_inversion obj obj' L P ch key th false h with
    ⟨g1, r1, mx, av, hmem, hg, hmx, hav, hobj'⟩
  have havv : av = _filter_cells_by_label obj [P] := by
    unfold availableCells at hav
    simp only [if_neg (by simp : ¬ (false : Bool) = true)] at hav
    rcases hlc : labeled_cells_lookup obj P with _ | cs
    · rw [hlc] at hav
      cases hav
    · rw [hlc] at hav
      injection hav with hav'
      unfold labeled_cells_lookup at hlc
      by_cases hc : P ∈ obj.labels ∨ P = 0
      · rw [if_pos hc] at hlc
        injection hlc with hlc'
        rw [← hav', ← hlc']
      · rw [if_neg hc] at hlc
        cases hlc
  subst hobj'
  subst havv
  intro c hc
  unfold cellsFor _filter_cells_by_label commitGate at hc
  unfold cellsFor _filter_cells_by_label
  simp only [List.mem_filter, decide_eq_true_eq, List.mem_singleton] at hc ⊢
  rcases hc with ⟨hcell, hlab⟩
  by_cases hsel : c ∈ gatedCells obj key ch th ∧ c ∈ obj.cells ∧ obj.assignment c = P
  · exact Or.inl ⟨hcell, hsel.2.2⟩
  · right
    rw [if_neg hsel] at hlab
    exact ⟨hcell, hlab⟩

/-- Claim C7: for any subset `S` of label ids, the cell set of the
sub-container returned by `select(S)` (`__getitem__`) and the cell set of the
sub-container returned by `deselect(S)` are disjoint: each cell has exactly
one label, and the deselected complement excludes every member of `S`. -/
theorem select_deselect_disjoint (obj o1 o2 : Container) (S : List Nat)
    (h1 : la_getitem_list obj S = .ok o1) (h2 : la_deselect_list obj S = .ok o2) :
    ∀ c, c ∈ o1.cells → c ∉ o2.cells := by
  unfold la_getitem_list at h1
  unfold la_deselect_list at h2
  split at h1
  · split at h2
    · simp only [Except.ok.injEq] at h1 h2
      subst h1
      subst h2
      intro c hc1 hc2
      simp only [_filter_cells_by_label, List.mem_filter, decide_eq_true_eq] at hc1 hc2
      exact hc2.2.2 hc1.2
    · cases h2
  · cases h1

/-- Claim C6, amended: `remove_label_type` is *not* a pure function of the
invoked container — it mutates the invoked object's `_obs` assignment table
in place (`self._obj[OBS].loc[...] = 0`) before returning the narrowed
container.  After a successful call the invoked container keeps its full
label registry and attribute store but shows every masked cell reset to 0;
the returned container shares that mutated assignment table.  (The other
operations modelled here — `gate`, `select`, `deselect` — copy before
writing and are pure as claimed.) -/
theorem remove_mutates_invoked_container (obj o1 o2 : Container) (ls : List Nat)
    (h : remove_label_type obj ls = .ok (o1, o2)) :
    o1.labels = obj.labels ∧ o1.attrs = obj.attrs ∧
      (∀ c, o1.assignment c = if c ∈ resetCells obj ls then 0 else obj.assignment c) ∧
      o2.assignment = o1.assignment ∧
      o2.labels = obj.labels.filter (fun i => i ∉ ls) := by
  unfold remove_label_type at h
  split at h
  · split at h
    · cases h
    · simp only [Except.ok.injEq, Prod.mk.injEq] at h
      rcases h with ⟨h1, h2⟩
      subst h1
      subst h2
      exact ⟨rfl, rfl, fun c => rfl, rfl, rfl⟩
  · cases h

/-- Claim C5: removing a label type leaves the persisted gating-graph
attributes unchanged — after `remove(label_id)`, a subsequent load of the
graph from the persisted attributes still reports the GatingNode for that
label id. -/
theorem remove_preserves_gate_graph (obj o1 o2 : Container) (L : Nat)
    (h : remove_label_type obj [L] = .ok (o1, o2)) :
    o2.attrs = obj.attrs ∧
      get_gate_graph o2.attrs false = get_gate_graph obj.attrs false ∧
      (∀ g r, get_gate_graph obj.attrs false = .ok (g, r) → hasNode g L = true →
        ∃ g' r', get_gate_graph o2.attrs false = .ok (g', r') ∧ hasNode g' L = true) := by
  unfold remove_label_type at h
  split at h
  · split at h
    · cases h
    · simp only [Except.ok.injEq, Prod.mk.injEq] at h
      rcases h with ⟨h1, h2⟩
      subst h1
      subst h2
      exact ⟨rfl, rfl, fun g r hgr hL => ⟨g, r, hgr, hL⟩⟩
  · cases h

/-- Claim C8, amended: when a graph entry is persisted, loading with
`consume=True` (`pop=True`) strips the `"graph"` entry and then pops *every*
remaining key of the persisted attribute store (the loop iterates over all
keys and pops each one, applying it as a node-attribute dictionary), leaving
the store empty — it does not preserve unrelated attributes, contrary to the
original claim (see the counterexample). -/
theorem consume_empties_attribute_store (attrs : List (String × AttrVal))
    (a : List (Nat × List Nat)) (g : NXGraph) (rest : List (String × AttrVal))
    (h1 : alGet attrs "graph" = some (.adj a))
    (h2 : get_gate_graph attrs true = .ok (g, rest)) : rest = [] := by
  unfold get_gate_graph at h2
  rw [h1] at h2
  simp only [Except.ok.injEq, Prod.mk.injEq] at h2
  exact h2.2.symm

/-- Claim C10: if `gate` is called with `override=True` and a parent that is
a valid registered label id which is not a node of the gating graph (and not
the root 0), the call raises networkx's descendant-lookup error rather than
treating the parent as having an empty descendant set; the same call with
`override=False` succeeds (hypothesis `hok`). -/
theorem gate_override_unregistered_parent_raises (obj obj' : Container) (L P : Nat)
    (ch key : String) (th : Int) (g1 : NXGraph) (r1 : List (String × AttrVal))
    (hg : get_gate_graph obj.attrs false = .ok (g1, r1))
    (hP : hasNode g1 P = false) (hP0 : P ≠ 0) (hPlab : P ∈ obj.labels)
    (hok : gate_label_type obj (Sum.inl L) ch th key false (Sum.inl P) = .ok obj') :
    gate_label_type obj (Sum.inl L) ch th key true (Sum.inl P)
      = .error "NetworkXError: The node is not in the digraph." := by
  rcases gate_inl_inversion obj obj' L P ch key th false hok with
    ⟨g1', r1', mx, av, hmem, hg', hmx, hav, hobj'⟩
  rw [hg] at hg'
  simp only [Except.ok.injEq, Prod.mk.injEq] at hg'
  rcases hg' with ⟨hgg, hrr⟩
  subst hgg
  unfold gate_label_type
  simp only [resolveRef]
  rw [if_pos hmem, hg]
  simp only [hmx]
  have hdesc : nxDescendants g1 P
      = .error "NetworkXError: The node is not in the digraph." := by
    unfold nxDescendants
    rw [hP]
    rfl
  have havail : availableCells obj g1 P true
      = .error "NetworkXError: The node is not in the digraph." := by
    unfold availableCells
    rw [if_pos rfl, hdesc]
  simp only [havail]

/-- Claim C9: `_format_labels([0,2,2,4])` detects the 0 among the unique
labels and shifts everything up by one to `[1,3,3,5]`, detects that the raw
unique labels `[0,2,4]` are non-consecutive, and relabels sequentially,
returning exactly `[1,2,2,3]`. -/
theorem format_labels_scenario :
    (0 : Int) ∈ npUnique [0, 2, 2, 4] ∧
      ([0, 2, 2, 4] : List Int).map (fun x => x + 1) = [1, 3, 3, 5] ∧
      ¬ (List.zipWith (fun a b => b - a) (npUnique [0, 2, 2, 4])
          ((npUnique [0, 2, 2, 4]).drop 1)).all (fun d => d = 1) ∧
      relabel_sequential [1, 3, 3, 5] = [1, 2, 2, 3] ∧
      _format_labels [0, 2, 2, 4] = [1, 2, 2, 3] := by
  refine ⟨by decide, by decide, by decide, by decide, by decide⟩

theorem C1_counterexample :
    gate_label_type c1Ex (Sum.inl 2) "CD3" 0 "_intensity" false (Sum.inl 0)
        = .ok c1Post ∧
      1 ∈ cellsFor c1Post 2 ∧ 1 ∉ cellsFor c1Ex 0 :=
  ⟨rfl, by decide, by decide⟩

theorem C1_witness : 2 ∈ cellsFor c1Ex 0 ∨ 2 ∈ cellsFor c1Ex 2 :=
  gate_cells_subset_parent_or_prior c1Ex c1Post 2 0 "CD3" "_intensity" 0 rfl 2 (by decide)

theorem C2_witness :
    persistedNodeProp c2Post "num_cells" 1
      = some (PropVal.nat (gatedCells c2Ex "_intensity" "CD3" 0).length) :=
  gate_num_cells_records_raw_count c2Ex c2Post 1 0 "CD3" "_intensity" 0 false rfl

theorem C3_witness :
    persistedNodeProp c3Post "step" 1 = some (PropVal.nat 1)
      ∧ nextStepOf c3Post = some 2 :=
  gate_next_step_increments c3Ex c3Post 1 0 "CD3" "_intensity" 0 false 1 (by decide)
    rfl (by decide)

/-- Claim C4, failing input: on a container with two cells assigned labels
`[2, 1]`, `remove([1, 2])` succeeds, removes both label entries, yet resets
*no* cell to 0 — the numpy `==` comparison against the list is elementwise
(`2 == 1`, `1 == 2`), not a membership test, so both cells keep their now
unregistered labels. -/
theorem C4_remove_list_comparison_bug :
    remove_label_type c4Ex [1, 2] = .ok c4Pair ∧
      c4Pair.2.labels = [] ∧
      c4Pair.2.assignment 10 = 2 ∧ c4Pair.2.assignment 11 = 1 ∧
      c4Ex.assignment 10 = 2 ∧ c4Ex.assignment 11 = 1 :=
  ⟨rfl, rfl, rfl, rfl, rfl, rfl⟩

theorem C5_witness :
    c5Pair.2.attrs = c5Ex.attrs ∧
      ∃ g' r', get_gate_graph c5Pair.2.attrs false = .ok (g', r')
        ∧ hasNode g' 1 = true :=
  ⟨(remove_preserves_gate_graph c5Ex c5Pair.1 c5Pair.2 1 rfl).1,
    (remove_preserves_gate_graph c5Ex c5Pair.1 c5Pair.2 1 rfl).2.2
      c5Loaded.1 c5Loaded.2 rfl (by decide)⟩

theorem C6_counterexample :
    remove_label_type c6Ex [1] = .ok c6Pair ∧
      c6Ex.assignment 10 = 1 ∧ c6Pair.1.assignment 10 = 0 :=
  ⟨rfl, rfl, rfl⟩

theorem C6_witness :
    c6Pair.1.labels = c6Ex.labels ∧
      c6Pair.1.assignment 10
        = (if 10 ∈ resetCells c6Ex [1] then 0 else c6Ex.assignment 10) :=
  ⟨(remove_mutates_invoked_container c6Ex c6Pair.1 c6Pair.2 [1] rfl).1,
    (remove_mutates_invoked_container c6Ex c6Pair.1 c6Pair.2 [1] rfl).2.2.1 10⟩

theorem C7_witness : 1 ∉ c7Desel.cells :=
  select_deselect_disjoint c7Ex c7Sel c7Desel [1] rfl rfl 1 (by decide)

theorem C8_counterexample :
    get_gate_graph c8Attrs true = .ok c8Pair ∧
      alGet c8Attrs "foo" = some (.raw "bar") ∧
      alGet c8Pair.2 "foo" = Option.none :=
  ⟨rfl, rfl, rfl⟩

theorem C8_witness : c8Pair.2 = [] :=
  consume_empties_attribute_store c8Attrs [(0, [1]), (1, [])] c8Pair.1 c8Pair.2 rfl rfl

theorem C10_witness :
    gate_label_type c10Ex (Sum.inl 2) "CD3" 0 "_intensity" true (Sum.inl 1)
      = .error "NetworkXError: The node is not in the digraph." :=
  gate_override_unregistered_parent_raises c10Ex c10Post 2 1 "CD3" "_intensity" 0
    freshGateGraph [] rfl (by decide) (by decide) (by decide) rfl
